import Mathlib

/-!
Shallow embedding of `jax/experimental/treevec.py` (the block-structured
tensor-algebra engine): the pytree utility boundary, the axis-structure data
model (`treedefs`, `leafshapes`, `leaves`), the `TreeTracer` construction
checks, the conversion boundary (`convert_vectorized_tree`, `restore_tree`),
and the rewrite rules (`naryop_tree_rule`, `concatenate_tree_rule`,
`squeeze_tree_rule`, `reducer_tree_rule`, `dot_general_tree_rule`) together
with the axis-algebra helpers they use.

Modelling conventions:
* Numeric array elements are modelled as `Int` (every concrete value in the
  repository's examples is integral, and the engine never divides); an array
  (`numpy`/`jax` block) is a row-major `List Int` plus a shape and a dtype tag.
* Python `dict`s keyed by coordinate tuples are association lists built in the
  same insertion order as the source; a missing key (`KeyError`) is the
  explicit error `TreeErr.MissingKey`.
* Python `raise ValueError` sites are `Except.error` with a constructor named
  after the error taxonomy of the specification; tuple-unpacking failures such
  as `ndim, = {...}` or `size, = lengths` are `TreeErr.SizeUnpackError`, a
  failing `assert` is `TreeErr.AssertionFailure`.
* The opaque pytree/flatten utility (an external collaborator of the engine)
  is modelled by a concrete rose tree `PyTree` with tagged nodes encoded in
  head/tail form, satisfying exactly the contract the engine relies on:
  `tree_flatten`, `tree_unflatten`, `num_leaves`, decidable equality and a
  distinguished trivial (single-leaf) treedef.
* `jnp.result_type` is modelled as the join in a small linear promotion order
  of dtypes; with no arguments it fails (`none`), as the real one raises.
-/

/-- Container model for the external pytree utility: a leaf holds a value, a
container is a tagged head/tail chain (`cons tag hd tl` is the container whose
first child is `hd` and whose remaining children form `tl`; `nil tag` is the
empty container).  Tags make structurally different containers (for example
dicts with different keys) compare unequal, as jax treedefs do. -/
inductive PyTree (α : Type) where
  | leaf (x : α)
  | nil (tag : String)
  | cons (tag : String) (hd tl : PyTree α)
deriving DecidableEq, Repr

/-- Container shape descriptor: a pytree with unit leaves. -/
abbrev TreeDef := PyTree Unit

/-- Value of `tree_structure(1)`: the descriptor of a bare leaf. -/
def TRIVIAL_TREEDEF : TreeDef := PyTree.leaf ()

/-- Number of leaves of a container (the `num_leaves` field of a treedef). -/
def PyTree.numLeaves {α : Type} : PyTree α → Nat
  | .leaf _ => 1
  | .nil _ => 0
  | .cons _ hd tl => hd.numLeaves + tl.numLeaves

/-- Descriptor of a container, forgetting the leaf values (`tree_structure`). -/
def tree_structure {α : Type} : PyTree α → TreeDef
  | .leaf _ => PyTree.leaf ()
  | .nil tag => PyTree.nil tag
  | .cons tag hd tl => PyTree.cons tag (tree_structure hd) (tree_structure tl)

/-- Ordered leaf values of a container (first component of `tree_flatten`). -/
def tree_leaves {α : Type} : PyTree α → List α
  | .leaf x => [x]
  | .nil _ => []
  | .cons _ hd tl => tree_leaves hd ++ tree_leaves tl

/-- The external utility's `tree_flatten`: ordered leaves plus descriptor. -/
def tree_flatten {α : Type} (t : PyTree α) : List α × TreeDef :=
  (tree_leaves t, tree_structure t)

/-- Replace every leaf of a container by a whole subtree (the grafting that
`tree_unflatten` performs when the provided values are themselves pytrees). -/
def PyTree.mapLeaves {α β : Type} (f : α → PyTree β) : PyTree α → PyTree β
  | .leaf x => f x
  | .nil tag => PyTree.nil tag
  | .cons tag hd tl => PyTree.cons tag (hd.mapLeaves f) (tl.mapLeaves f)

/-- Worker for `tree_unflatten`: consume values from the list, one per leaf
slot of the descriptor, returning the rebuilt tree and the unconsumed rest. -/
def unflattenAux {β : Type} : TreeDef → List (PyTree β) → Option (PyTree β × List (PyTree β))
  | .leaf _, x :: rest => some (x, rest)
  | .leaf _, [] => none
  | .nil tag, xs => some (PyTree.nil tag, xs)
  | .cons tag d r, xs =>
    match unflattenAux d xs with
    | none => none
    | some (hd, xs1) =>
      match unflattenAux r xs1 with
      | none => none
      | some (tl, xs2) => some (PyTree.cons tag hd tl, xs2)

/-- The external utility's `tree_unflatten`: rebuild a container of the given
descriptor from a list of values (which may themselves be containers); fails
if the count of values does not match the descriptor's leaf count. -/
def tree_unflatten {β : Type} (td : TreeDef) (xs : List (PyTree β)) : Option (PyTree β) :=
  match unflattenAux td xs with
  | some (t, []) => some t
  | _ => none

/-- Element types, with the numeric promotion order used by `jnp.result_type`
restricted to the kinds exercised by this engine. -/
inductive DType where
  | bool
  | int32
  | float32
  | float64
deriving DecidableEq, Repr

/-- Position of a dtype in the linear promotion order. -/
def DType.rank : DType → Nat
  | .bool => 0
  | .int32 => 1
  | .float32 => 2
  | .float64 => 3

/-- Binary dtype promotion: the larger of the two in the promotion order. -/
def promoteDType (a b : DType) : DType := if a.rank ≤ b.rank then b else a

/-- Promotion of a non-empty list of dtypes with an arbitrary base case (used
inside compute kernels, which always receive at least one operand). -/
def promoteList (ds : List DType) : DType :=
  match ds with
  | [] => DType.float32
  | d :: rest => rest.foldl promoteDType d

/-- Model of `jnp.result_type`: join of the argument dtypes; fails (as the
real function raises) when called with no arguments. -/
def result_type (ds : List DType) : Option DType :=
  match ds with
  | [] => none
  | d :: rest => some (rest.foldl promoteDType d)

/-- Physical shape: tuple of non-negative extents. -/
abbrev Shape := List Nat

/-- Coordinate tuple: one partition index per logical axis. -/
abbrev Coords := List Nat

/-- Concrete array block: shape, element type tag, and row-major data. -/
structure Arr where
  shape : Shape
  dtype : DType
  data : List Int
deriving DecidableEq, Repr

/-- Placeholder array, only ever produced on code paths the source would have
aborted on earlier (it lets total helper functions stay executable). -/
def junkArr : Arr := ⟨[], DType.float32, []⟩

/-- Row-major offset of a multi-index within a shape. -/
def ravel (shape : Shape) (idx : List Nat) : Nat :=
  (shape.zip idx).foldl (fun acc p => acc * p.1 + p.2) 0

/-- All multi-indices of a shape-like list of ranges, row major (first
coordinate varies slowest), mirroring `itertools.product`. -/
def listProd : List (List Nat) → List (List Nat)
  | [] => [[]]
  | xs :: rest => xs.flatMap (fun i => (listProd rest).map (i :: ·))

/-- All row-major multi-indices of a shape. -/
def allIdx (shape : Shape) : List (List Nat) := listProd (shape.map List.range)

/-- Element of an array at a multi-index. -/
def Arr.get (a : Arr) (idx : List Nat) : Int := a.data.getD (ravel a.shape idx) 0

/-- Build an array of a given dtype and shape from an index function. -/
def Arr.ofFn (dt : DType) (shape : Shape) (f : List Nat → Int) : Arr :=
  ⟨shape, dt, (allIdx shape).map f⟩

/-- Model of `jnp.asarray(leaf, dtype)`: retag the element type.  (On the
integral values this development manipulates, casting changes no value.) -/
def asarray (a : Arr) (dt : DType) : Arr := ⟨a.shape, dt, a.data⟩

/-- Errors.  Constructors follow the specification's taxonomy for the
`raise ValueError` sites of the source; `SizeUnpackError` stands for a failed
tuple unpacking such as `ndim, = {...}` or `size, = lengths`,
`AssertionFailure` for a failed `assert`, `MissingKey` for a dict `KeyError`,
`EmptyReduce` for `functools.reduce` on an empty list, `KernelError` for a
shape error raised inside a compute kernel (for example `lax.squeeze` of a
non-unit dimension), and `InvalidSplitShapes` for `_split_leaves`' rejection
of a source axis that is not a single one-dimensional segment. -/
inductive TreeErr where
  | ConflictingStructure
  | ConflictingShape
  | ShapeMismatch
  | InvalidConcatenateAxis
  | InvalidSqueezeAxis
  | InvalidSplitShapes
  | SizeUnpackError
  | KernelError
  | MissingKey
  | EmptyReduce
  | AssertionFailure
deriving DecidableEq, Repr

deriving instance DecidableEq for Except

/-- Per-axis segment shapes of one value: `leafshapes[axis]` lists one shape
per partition index of that axis (`LeafShapes` of the source). -/
abbrev LeafShapes := List (List Shape)

/-- Sparse block store: association list from coordinates to blocks, in the
insertion order of the source's dict (`Leaves` of the source). -/
abbrev Leaves := List (Coords × Arr)

/-- Lookup in an association list (python dict access, as an `Option`). -/
def assocLookup {β : Type} : List (Coords × β) → Coords → Option β
  | [], _ => none
  | (k, v) :: rest, k0 => if k = k0 then some v else assocLookup rest k0

/-- Dict access that raises `KeyError` on a missing key. -/
def dictGet (lvs : Leaves) (k : Coords) : Except TreeErr Arr :=
  match assocLookup lvs k with
  | some v => Except.ok v
  | none => Except.error TreeErr.MissingKey

/-- Total variant of dict access (only used to phrase theorems about states
in which the lookup is known to succeed). -/
def dictGetD (lvs : Leaves) (k : Coords) : Arr := (assocLookup lvs k).getD junkArr

/-- The triple a `TreeTracer` carries and the rules rewrite:
`(treedefs, leafshapes, leaves)`. -/
structure TreeState where
  treedefs : List TreeDef
  leafshapes : LeafShapes
  leaves : Leaves
deriving DecidableEq, Repr

/-- Source `is_trivial_axis`: trivial container descriptor, one segment, and
that segment one-dimensional. -/
def is_trivial_axis (td : TreeDef) (shapes : List Shape) : Bool :=
  td = TRIVIAL_TREEDEF && shapes.length = 1 && (shapes.getD 0 []).length = 1

/-- Source `_iter_leaf_coords`: row-major product of `range(num_leaves)`. -/
def iter_leaf_coords (tds : List TreeDef) : List Coords :=
  listProd (tds.map (fun td => List.range td.numLeaves))

/-- Source `_iter_leaf_coords2`: row-major product of `range(len(shapes))`. -/
def iter_leaf_coords2 (ls : LeafShapes) : List Coords :=
  listProd (ls.map (fun shapes => List.range shapes.length))

/-- Source `_axis_length`: total logical extent of an axis, the sum over its
segments of each segment shape's element count. -/
def axis_length (shapes : List Shape) : Nat := (shapes.map (fun s => s.prod)).sum

/-- Source `_leafshape`: physical shape of the block at `coords`, the
concatenation of the selected segment shapes across axes. -/
def leafshape (ls : LeafShapes) (coords : Coords) : Shape :=
  (coords.enum.map (fun p => (ls.getD p.1 []).getD p.2 [])).flatten

/-- Source `_axes_for_leaf`: physical dimensions of a block that the given
logical `axes` occupy, given the partition choice `coords` of every axis. -/
def axes_for_leaf (ls : LeafShapes) (coords : Coords) (axes : List Nat) : List Nat :=
  (coords.enum.foldl
    (fun (acc : List Nat × Nat) p =>
      let n := ((ls.getD p.1 []).getD p.2 []).length
      (if p.1 ∈ axes then acc.1 ++ (List.range n).map (acc.2 + ·) else acc.1, acc.2 + n))
    ([], 0)).1

/-- Right-pad-free alignment for numpy broadcasting: prepend 1s. -/
def padShapeLeft (s : Shape) (n : Nat) : Shape := List.replicate (n - s.length) 1 ++ s

/-- Numpy broadcast of two shapes (defined on broadcast-compatible inputs,
where per-dimension `max` is the broadcast extent). -/
def broadcastShape2 (s t : Shape) : Shape :=
  let n := max s.length t.length
  (padShapeLeft s n).zipWith max (padShapeLeft t n)

/-- Numpy broadcast of a list of shapes. -/
def broadcastShapes (ss : List Shape) : Shape := ss.foldl broadcastShape2 []

/-- Read an array at an index of the broadcast result shape (right-aligned;
size-1 dimensions repeat their single entry). -/
def bcastGet (a : Arr) (idx : List Nat) : Int :=
  let sub := idx.drop (idx.length - a.shape.length)
  a.get ((a.shape.zip sub).map (fun p => if p.1 = 1 then 0 else p.2))

/-- Generic elementwise n-ary kernel with numpy broadcasting; stands for the
`prim.bind` of an elementwise primitive on concrete blocks. -/
def naryKernel (f : List Int → Int) (args : List Arr) : Arr :=
  let sh := broadcastShapes (args.map (·.shape))
  Arr.ofFn (promoteList (args.map (·.dtype))) sh
    (fun idx => f (args.map (fun a => bcastGet a idx)))

/-- Elementwise addition kernel (`lax.add_p.bind`). -/
def addArr (a b : Arr) : Arr := naryKernel (fun l => l.foldl (· + ·) 0) [a, b]

/-- First-seeded fold, the semantics of `functools.reduce` on a non-empty
list (and of a numpy reduction over the listed values). -/
def foldFirstInt (op : Int → Int → Int) : List Int → Int
  | [] => 0
  | h :: t => t.foldl op h

/-- Elementwise maximum kernel (`lax.max_p.bind`). -/
def maxArr (a b : Arr) : Arr := naryKernel (foldFirstInt max) [a, b]

/-- Multi-index into the input of a reduction: interleave the reduced-axes
index `ridx` and the kept-axes index `oidx` back into input positions. -/
def mergeIdx (ndim : Nat) (axes : List Nat) (ridx oidx : List Nat) : List Nat :=
  (List.range ndim).map (fun d =>
    if d ∈ axes then ridx.getD (((List.range d).filter (fun i => decide (i ∈ axes))).length) 0
    else oidx.getD (((List.range d).filter (fun i => decide (i ∉ axes))).length) 0)

/-- Reduction kernel over a set of physical dimensions (`lax.reduce_sum_p`
and friends on one block); the combiner is folded from the first element, so
it matches numpy for any associative-commutative combiner on non-empty data.
-/
def reduceArr (op : Int → Int → Int) (a : Arr) (axes : List Nat) : Arr :=
  let outShape := (a.shape.enum.filter (fun p => decide (p.1 ∉ axes))).map (·.2)
  let redShape := (a.shape.enum.filter (fun p => decide (p.1 ∈ axes))).map (·.2)
  Arr.ofFn a.dtype outShape (fun oidx =>
    foldFirstInt op ((allIdx redShape).map (fun ridx =>
      a.get (mergeIdx a.shape.length axes ridx oidx))))

/-- Sum-reduction kernel (`lax.reduce_sum_p.bind` restricted to `axes`). -/
def reduceSumArr (a : Arr) (axes : List Nat) : Arr := reduceArr (· + ·) a axes

/-- Max-reduction kernel (`lax.reduce_max_p.bind` restricted to `axes`). -/
def reduceMaxArr (a : Arr) (axes : List Nat) : Arr := reduceArr max a axes

/-- Squeeze kernel (`lax.squeeze`): drops the listed dimensions, each of
which must exist and have extent 1; row-major data is unchanged. -/
def squeezeArr (a : Arr) (dims : List Nat) : Except TreeErr Arr :=
  if dims.all (fun d => decide (d < a.shape.length) && decide (a.shape.getD d 0 = 1)) then
    Except.ok ⟨(a.shape.enum.filter (fun p => decide (p.1 ∉ dims))).map (·.2), a.dtype, a.data⟩
  else Except.error TreeErr.KernelError

/-- Shape with extent-1 dimensions inserted at the listed output positions
(fuel-indexed worker; fuel is the output rank). -/
def insertOnesGo (dims : List Nat) : Nat → Nat → Shape → Shape
  | 0, _, _ => []
  | fuel + 1, pos, s =>
    if pos ∈ dims then 1 :: insertOnesGo dims fuel (pos + 1) s
    else
      match s with
      | [] => []
      | h :: t => h :: insertOnesGo dims fuel (pos + 1) t

/-- Expand-dims kernel (`lax.expand_dims`): insert extent-1 dimensions at the
listed result positions; row-major data is unchanged. -/
def expandDimsArr (a : Arr) (dims : List Nat) : Arr :=
  ⟨insertOnesGo dims (a.shape.length + dims.length) 0 a.shape, a.dtype, a.data⟩

/-- Element of the concatenation of blocks along `axis` at a result index:
walk the pieces, consuming their extents along `axis`. -/
def concatPick (axis : Nat) (idx : List Nat) : List Arr → Int
  | [] => 0
  | a :: rest =>
    let n := a.shape.getD axis 0
    let i := idx.getD axis 0
    if i < n then a.get (idx.set axis i)
    else concatPick axis (idx.set axis (i - n)) rest

/-- Concatenation kernel (`lax.concatenate_p.bind`) along a physical
dimension; operand shapes agree off `axis`. -/
def concatArr (xs : List Arr) (axis : Nat) : Arr :=
  match xs with
  | [] => junkArr
  | a0 :: _ =>
    let total := (xs.map (fun x => x.shape.getD axis 0)).sum
    Arr.ofFn (promoteList (xs.map (·.dtype))) (a0.shape.set axis total)
      (fun idx => concatPick axis idx xs)

/-- Rebuild a full operand multi-index from its batch / contracted / free
parts (`dotGeneralArr` helper). -/
def assembleIdx (ndim : Nat) (bDims bidx cDims cidx fDims fidx : List Nat) : List Nat :=
  (List.range ndim).map (fun d =>
    if d ∈ bDims then bidx.getD (bDims.indexOf d) 0
    else if d ∈ cDims then cidx.getD (cDims.indexOf d) 0
    else fidx.getD (fDims.indexOf d) 0)

/-- General contraction kernel (`lax.dot_general_p.bind` on two blocks):
output dimensions are batch, then lhs free, then rhs free; every entry sums
the products over the contracted multi-indices. -/
def dotGeneralArr (a b : Arr) (lc rc lb rb : List Nat) : Arr :=
  let lhsFree := (List.range a.shape.length).filter (fun d => decide (d ∉ lc ∧ d ∉ lb))
  let rhsFree := (List.range b.shape.length).filter (fun d => decide (d ∉ rc ∧ d ∉ rb))
  let outShape := lb.map (fun d => a.shape.getD d 0)
    ++ lhsFree.map (fun d => a.shape.getD d 0)
    ++ rhsFree.map (fun d => b.shape.getD d 0)
  let cShape := lc.map (fun d => a.shape.getD d 0)
  Arr.ofFn (promoteDType a.dtype b.dtype) outShape (fun oidx =>
    let bidx := oidx.take lb.length
    let lidx := (oidx.drop lb.length).take lhsFree.length
    let ridx := oidx.drop (lb.length + lhsFree.length)
    ((allIdx cShape).map (fun cidx =>
      a.get (assembleIdx a.shape.length lb bidx lc cidx lhsFree lidx)
        * b.get (assembleIdx b.shape.length rb bidx rc cidx rhsFree ridx))).foldl (· + ·) 0)

/-- Source `convert_vectorized_tree`: flatten the container, promote all leaf
dtypes with `result_type` (failing on a leafless container, as
`jnp.result_type()` raises), cast every leaf to the promoted dtype and store
it under the singleton coordinate of a rank-1 structured value. -/
def convert_vectorized_tree (t : PyTree Arr) : Option TreeState :=
  let xs := (tree_flatten t).1
  let td := (tree_flatten t).2
  match result_type (xs.map (·.dtype)) with
  | none => none
  | some dt =>
    some ⟨[td], [xs.map (·.shape)], xs.enum.map (fun p => ([p.1], asarray p.2 dt))⟩

/-- Source `convert_leaf_array`: a bare array becomes a structured value with
one trivial axis per array dimension and a single block. -/
def convert_leaf_array (a : Arr) : TreeState :=
  ⟨List.replicate a.shape.length TRIVIAL_TREEDEF,
   a.shape.map (fun s => [[s]]),
   [(List.replicate a.shape.length 0, a)]⟩

/-- Source `restore_tree`'s while loop, processing the treedef list from the
last axis inward; the argument is the reversed treedef list so the recursion
is structural.  Intermediate dict values are pytrees (the containers
unflattened so far); blocks enter as leaf pytrees. -/
def restoreRev : List TreeDef → List (Coords × PyTree Arr) → Option (PyTree Arr)
  | [], lvs => assocLookup lvs []
  | last :: revFront, lvs =>
    match (iter_leaf_coords revFront.reverse).mapM (fun coords =>
        match (List.range last.numLeaves).mapM (fun i => assocLookup lvs (coords ++ [i])) with
        | none => none
        | some leafList =>
          match tree_unflatten last leafList with
          | none => none
          | some t => some (coords, t)) with
    | none => none
    | some flattened => restoreRev revFront flattened

/-- Source `restore_tree`: rebuild the nested container of a structured value
from its per-axis descriptors and its blocks. -/
def restore_tree (tds : List TreeDef) (lvs : Leaves) : Option (PyTree Arr) :=
  restoreRev tds.reverse (lvs.map (fun p => (p.1, PyTree.leaf p.2)))

/-- The checks `TreeTracer.__init__` performs on `(treedefs, leafshapes,
leaves)`: matching lengths, one segment shape per leaf of each axis
descriptor, a non-empty block dict, and, for every coordinate of the full
Cartesian product, a present block whose shape is the concatenation of the
selected segment shapes.  (A missing block surfaces as a `KeyError`, hence
also a failed construction.) -/
def treeTracerCheck (tds : List TreeDef) (ls : LeafShapes) (lvs : Leaves) : Bool :=
  tds.length = ls.length
  && (tds.zip ls).all (fun p => p.1.numLeaves = p.2.length)
  && !lvs.isEmpty
  && (iter_leaf_coords tds).all (fun coords =>
      match assocLookup lvs coords with
      | some a => a.shape = leafshape ls coords
      | none => false)

/-- Uniformity of the element type across all stored blocks. -/
def dtypesUniform (lvs : Leaves) : Bool := (lvs.map (·.2.dtype)).dedup.length ≤ 1

/-- Source `_split_leaf`: split one block along physical dimension `axis`
into one piece per target segment shape (each piece reshaped to that segment
shape in place of the axis); `ShapeMismatch` when the segments' total length
disagrees with the block's extent along `axis`. -/
def split_leaf (a : Arr) (axis : Nat) (shapes : List Shape) : Except TreeErr (List Arr) :=
  if axis_length shapes ≠ a.shape.getD axis 0 then Except.error TreeErr.ShapeMismatch
  else
    Except.ok ((shapes.foldl (fun (acc : List Arr × Nat) sh =>
      (acc.1 ++ [Arr.ofFn a.dtype (a.shape.take axis ++ sh ++ a.shape.drop (axis + 1))
        (fun idx => a.get (idx.take axis
          ++ (acc.2 + ravel sh ((idx.drop axis).take sh.length))
          :: idx.drop (axis + sh.length)))],
       acc.2 + sh.prod)) ([], 0)).1)

/-- Source `_split_leaves`: split every block of a value along logical axis
`axis` into the target segments, redistributing coordinates; requires the
source axis to hold a single one-dimensional segment. -/
def split_leaves (ls : LeafShapes) (lvs : Leaves) (axis : Nat) (shapes : List Shape) :
    Except TreeErr Leaves :=
  if (ls.getD axis []).length ≠ 1 ∨ ((ls.getD axis []).getD 0 []).length ≠ 1 then
    Except.error TreeErr.InvalidSplitShapes
  else
    (iter_leaf_coords2 ls).foldlM (fun out ic => do
      let leaf ← dictGet lvs ic
      let leafAxis ← match axes_for_leaf ls ic [axis] with
        | [d] => Except.ok d
        | _ => Except.error TreeErr.SizeUnpackError
      let pieces ← split_leaf leaf leafAxis shapes
      Except.ok (out ++ pieces.enum.map (fun p =>
        (ic.take axis ++ p.1 :: ic.drop (axis + 1), p.2)))) []

/-- Source `_filter_scalar_leaves`: separate rank-0 operands (bare scalars)
from the structural reasoning, remembering their argument positions. -/
def filter_scalar_leaves (ops : List TreeState) :
    Except TreeErr (List TreeState × List (Nat × Arr)) :=
  ops.enum.foldlM (fun (acc : List TreeState × List (Nat × Arr)) p =>
    if p.2.treedefs.isEmpty then do
      let v ← dictGet p.2.leaves []
      Except.ok (acc.1, acc.2 ++ [(p.1, v)])
    else Except.ok (acc.1 ++ [p.2], acc.2)) ([], [])

/-- Python `list.insert`, which clamps the position to the end. -/
def pyInsert {α : Type} (l : List α) (i : Nat) (x : α) : List α :=
  l.take i ++ x :: l.drop i

/-- Reinsert the filtered scalar arguments at their original positions. -/
def insertScalars (args : List Arr) (scalars : List (Nat × Arr)) : List Arr :=
  scalars.foldl (fun acc p => pyInsert acc p.1 p.2) args

/-- Treedefs of all operands at one axis (`treedefs[axis] for each operand`). -/
def treedefsAt (ops : List TreeState) (axis : Nat) : List TreeDef :=
  ops.map (fun st => st.treedefs.getD axis TRIVIAL_TREEDEF)

/-- Segment sequences of all operands at one axis. -/
def leafshapesAt (ops : List TreeState) (axis : Nat) : List (List Shape) :=
  ops.map (fun st => st.leafshapes.getD axis [])

/-- Distinct non-trivial treedefs at an axis (the python set
`{treedefs[axis] ... if treedefs[axis] != TRIVIAL_TREEDEF}`). -/
def nonTrivialDedup (tds : List TreeDef) : List TreeDef :=
  (tds.filter (fun td => decide (td ≠ TRIVIAL_TREEDEF))).dedup

/-- Distinct multi-segment sequences at an axis (the python set
`{leafshapes[axis] ... if len(leafshapes[axis]) != 1}`). -/
def nonTrivialShapesDedup (lss : List (List Shape)) : List (List Shape) :=
  (lss.filter (fun s => decide (s.length ≠ 1))).dedup

/-- One axis of `naryop_tree_rule`'s structure resolution (source lines
606-632): at most one distinct non-trivial treedef (else
`ConflictingStructure`), at most one distinct non-trivial segment sequence
(else `ConflictingShape`); with none, the result segment sequence is one
segment of the maximal operand length. -/
def naryopAxisStructure (tds : List TreeDef) (lss : List (List Shape)) :
    Except TreeErr (TreeDef × List Shape) :=
  let ntt := nonTrivialDedup tds
  if 1 < ntt.length then Except.error TreeErr.ConflictingStructure
  else
    let td := ntt.headD TRIVIAL_TREEDEF
    let nts := nonTrivialShapesDedup lss
    if 1 < nts.length then Except.error TreeErr.ConflictingShape
    else
      match nts with
      | [s] => Except.ok (td, s)
      | _ => Except.ok (td, [[(lss.map axis_length).foldl max 0]])

/-- Structure-resolution loop of `naryop_tree_rule` over all axes. -/
def naryopOutStructure (opsF : List TreeState) (ndim : Nat) :
    Except TreeErr (List TreeDef × LeafShapes) := do
  let axes ← (List.range ndim).mapM (fun axis =>
    naryopAxisStructure (treedefsAt opsF axis) (leafshapesAt opsF axis))
  Except.ok (axes.map (·.1), axes.map (·.2))

/-- The per-operand axis-fixing loop of `naryop_tree_rule` (source lines
637-646): walk the axes in order and, exactly when the operand's segment
layout at an axis differs from the adopted result layout AND the operand's
axis length there is not 1, split that axis to the result layout.  As in the
source, each split call receives the operand's original `leafshapes` while
the updated layout is tracked separately in the accumulator. -/
def naryopFixGo (outLs ls : LeafShapes) : List Nat → LeafShapes → Leaves →
    Except TreeErr (LeafShapes × Leaves)
  | [], lsAcc, lvs => Except.ok (lsAcc, lvs)
  | axis :: rest, lsAcc, lvs =>
    if ls.getD axis [] ≠ outLs.getD axis [] ∧ axis_length (ls.getD axis []) ≠ 1 then
      match split_leaves ls lvs axis (outLs.getD axis []) with
      | Except.error e => Except.error e
      | Except.ok lvs1 => naryopFixGo outLs ls rest (lsAcc.set axis (outLs.getD axis [])) lvs1
    else naryopFixGo outLs ls rest lsAcc lvs

/-- Axis fixing for one operand of `naryop_tree_rule`. -/
def naryopFixOperand (outLs : LeafShapes) (ndim : Nat) (ls : LeafShapes) (lvs : Leaves) :
    Except TreeErr (LeafShapes × Leaves) :=
  naryopFixGo outLs ls (List.range ndim) ls lvs

/-- Input coordinates of one (fixed) operand for a result coordinate: axes
with a single segment broadcast from partition 0. -/
def naryopInCoords (ls : LeafShapes) (oc : Coords) : Coords :=
  oc.enum.map (fun p => if (ls.getD p.1 []).length ≠ 1 then p.2 else 0)

/-- Axes of one operand whose segment sequence is exactly `((1,),)`: the
size-1 placeholders squeezed out and re-inserted during broadcasting. -/
def broadcastingDims (ls : LeafShapes) : List Nat :=
  (ls.enum.filter (fun p => decide (p.2 = [[1]]))).map (·.1)

/-- One operand's block, prepared for the kernel call at a result coordinate
(source lines 653-663): fetch, squeeze out broadcast placeholders, re-insert
them at the result positions. -/
def naryopArg (outLs : LeafShapes) (oc : Coords) (ls : LeafShapes) (lvs : Leaves) :
    Except TreeErr Arr := do
  let ic := naryopInCoords ls oc
  let leaf ← dictGet lvs ic
  let bdims := broadcastingDims ls
  let removeDims := axes_for_leaf ls ic bdims
  let insertDims := axes_for_leaf outLs oc bdims
  let squeezed ← squeezeArr leaf removeDims
  Except.ok (expandDimsArr squeezed insertDims)

/-- Source `naryop_tree_rule`, parametrized by the elementwise kernel `op`
(the `prim.bind` of the primitive): filter scalars, resolve per-axis result
structure, split mismatched trivial axes, then compute one block per result
coordinate. -/
def naryop_tree_rule (op : List Arr → Arr) (ops : List TreeState) :
    Except TreeErr TreeState := do
  let fs ← filter_scalar_leaves ops
  let opsF := fs.1
  let scalars := fs.2
  match opsF with
  | [] => Except.ok ⟨[], [], [([], op (scalars.map (·.2)))]⟩
  | _ :: _ => do
    let ndim ← match (opsF.map (fun st => st.treedefs.length)).dedup with
      | [n] => Except.ok n
      | _ => Except.error TreeErr.SizeUnpackError
    let outStruct ← naryopOutStructure opsF ndim
    let outTds := outStruct.1
    let outLs := outStruct.2
    let fixed ← opsF.mapM (fun st => naryopFixOperand outLs ndim st.leafshapes st.leaves)
    let outLeaves ← (iter_leaf_coords outTds).mapM (fun oc => do
      let args ← fixed.mapM (fun p => naryopArg outLs oc p.1 p.2)
      Except.ok (oc, op (insertScalars args scalars)))
    Except.ok ⟨outTds, outLs, outLeaves⟩

/-- One axis of `concatenate_tree_rule`'s structure resolution (source lines
717-758): along the concatenation axis any non-trivial treedef or any
multi-segment sequence is `InvalidConcatenateAxis`, and the result length is
the summed operand length; elsewhere the checks match the n-ary rule except
that with no non-trivial sequence the single operand length is unpacked (a
`SizeUnpackError` when several operands reach that branch). -/
def concatAxisStructure (dimension axis : Nat) (tds : List TreeDef) (lss : List (List Shape)) :
    Except TreeErr (TreeDef × List Shape) :=
  let ntt := nonTrivialDedup tds
  if axis = dimension ∧ ¬ ntt.isEmpty then Except.error TreeErr.InvalidConcatenateAxis
  else if 1 < ntt.length then Except.error TreeErr.ConflictingStructure
  else
    let td := ntt.headD TRIVIAL_TREEDEF
    let nts := nonTrivialShapesDedup lss
    if axis = dimension ∧ ¬ nts.isEmpty then Except.error TreeErr.InvalidConcatenateAxis
    else if 1 < nts.length then Except.error TreeErr.ConflictingShape
    else
      match nts with
      | [s] => Except.ok (td, s)
      | _ =>
        let lengths := lss.map axis_length
        if axis = dimension then Except.ok (td, [[lengths.sum]])
        else
          match lengths with
          | [l] => Except.ok (td, [[l]])
          | _ => Except.error TreeErr.SizeUnpackError

/-- Structure-resolution loop of `concatenate_tree_rule` over all axes. -/
def concatOutStructure (ops : List TreeState) (ndim dimension : Nat) :
    Except TreeErr (List TreeDef × LeafShapes) := do
  let axes ← (List.range ndim).mapM (fun axis =>
    concatAxisStructure dimension axis (treedefsAt ops axis) (leafshapesAt ops axis))
  Except.ok (axes.map (·.1), axes.map (·.2))

/-- The per-operand fixing loop of `concatenate_tree_rule` (source lines
761-766): split every non-concatenation axis whose layout differs from the
result layout (the source threads only the leaves; each split again receives
the operand's original `leafshapes`). -/
def concatFixGo (outLs ls : LeafShapes) (dimension : Nat) : List Nat → Leaves →
    Except TreeErr Leaves
  | [], lvs => Except.ok lvs
  | axis :: rest, lvs =>
    if axis ≠ dimension ∧ ls.getD axis [] ≠ outLs.getD axis [] then
      match split_leaves ls lvs axis (outLs.getD axis []) with
      | Except.error e => Except.error e
      | Except.ok lvs1 => concatFixGo outLs ls dimension rest lvs1
    else concatFixGo outLs ls dimension rest lvs

/-- Source `concatenate_tree_rule`: validate per-axis structure, reconcile
non-concatenation axes by splitting, then concatenate the per-coordinate
blocks along the physical dimension of the concatenation axis. -/
def concatenate_tree_rule (ops : List TreeState) (dimension : Nat) :
    Except TreeErr TreeState := do
  let ndim ← match (ops.map (fun st => st.treedefs.length)).dedup with
    | [n] => Except.ok n
    | _ => Except.error TreeErr.SizeUnpackError
  let outStruct ← concatOutStructure ops ndim dimension
  let outTds := outStruct.1
  let outLs := outStruct.2
  let fixed ← ops.mapM (fun st =>
    concatFixGo outLs st.leafshapes dimension (List.range ndim) st.leaves)
  let outLeaves ← (iter_leaf_coords outTds).mapM (fun coords => do
    let args ← fixed.mapM (fun lvs => dictGet lvs coords)
    let leafDim ← match axes_for_leaf outLs coords [dimension] with
      | [d] => Except.ok d
      | _ => Except.error TreeErr.SizeUnpackError
    Except.ok (coords, concatArr args leafDim))
  Except.ok ⟨outTds, outLs, outLeaves⟩

/-- Source `squeeze_tree_rule`: every squeezed logical axis must carry a
trivial treedef (`InvalidSqueezeAxis` otherwise); surviving axes keep their
structure and every block drops the physical dimensions of the squeezed
axes. -/
def squeeze_tree_rule (st : TreeState) (dimensions : List Nat) :
    Except TreeErr TreeState := do
  let _ ← st.treedefs.enum.mapM (fun p =>
    if p.1 ∈ dimensions ∧ p.2 ≠ TRIVIAL_TREEDEF then
      Except.error TreeErr.InvalidSqueezeAxis
    else Except.ok ())
  let outTds := (st.treedefs.enum.filter (fun p => decide (p.1 ∉ dimensions))).map (·.2)
  let outLs := (st.leafshapes.enum.filter (fun p => decide (p.1 ∉ dimensions))).map (·.2)
  let outLeaves ← ((iter_leaf_coords st.treedefs).zip (iter_leaf_coords outTds)).mapM
    (fun pr => do
      let leaf ← dictGet st.leaves pr.1
      let squeezed ← squeezeArr leaf (axes_for_leaf st.leafshapes pr.1 dimensions)
      Except.ok (pr.2, squeezed))
  Except.ok ⟨outTds, outLs, outLeaves⟩

/-- Coordinates with the reduced axis positions dropped. -/
def dropAxes (axes : List Nat) (coords : Coords) : Coords :=
  (coords.enum.filter (fun p => decide (p.1 ∉ axes))).map (·.2)

/-- Append a value to the list stored under a key of an accumulator dict
(python `out_nodes[key].append(v)`); a missing key is a `KeyError`. -/
def assocAppendArr : List (Coords × List Arr) → Coords → Arr →
    Except TreeErr (List (Coords × List Arr))
  | [], _, _ => Except.error TreeErr.MissingKey
  | (k, v) :: rest, k0, a =>
    if k = k0 then Except.ok ((k, v ++ [a]) :: rest)
    else
      match assocAppendArr rest k0 a with
      | Except.error e => Except.error e
      | Except.ok rest1 => Except.ok ((k, v) :: rest1)

/-- Accumulation loop shared by the reduction and contraction rules: visit
the items in order, compute each item's block (which may fail) and append it
to the accumulator entry of the item's output coordinate. -/
def accumExcept {ι : Type} (keyf : ι → Coords) (valf : ι → Except TreeErr Arr) :
    List ι → List (Coords × List Arr) → Except TreeErr (List (Coords × List Arr))
  | [], nodes => Except.ok nodes
  | i :: rest, nodes =>
    match valf i with
    | Except.error e => Except.error e
    | Except.ok v =>
      match assocAppendArr nodes (keyf i) v with
      | Except.error e => Except.error e
      | Except.ok nodes1 => accumExcept keyf valf rest nodes1

/-- Value of an `Except` known to be `ok` (placeholder otherwise). -/
def exceptValArr (e : Except TreeErr Arr) : Arr :=
  match e with
  | Except.ok v => v
  | Except.error _ => junkArr

/-- Fold a non-empty accumulator entry with the binary combiner
(`functools.reduce(binop, v)`); empty entries are the `TypeError` of a
`reduce` with no values. -/
def reduceNodes (binop : Arr → Arr → Arr) (nodes : List (Coords × List Arr)) :
    Except TreeErr Leaves :=
  nodes.mapM (fun p =>
    match p.2 with
    | [] => Except.error TreeErr.EmptyReduce
    | h :: t => Except.ok (p.1, t.foldl binop h))

/-- The partially reduced block the reducer rule computes for one input
coordinate (kernel reduction over the physical dimensions of the reduced
logical axes). -/
def reducerLeafValue (kern : Arr → List Nat → Arr) (ls : LeafShapes) (lvs : Leaves)
    (axes : List Nat) (ic : Coords) : Except TreeErr Arr :=
  (dictGet lvs ic).map (fun leaf => kern leaf (axes_for_leaf ls ic axes))

/-- Source `reducer_tree_rule`, parametrized by the per-block reduction
kernel (`prim.bind`) and the binary combiner (`binop_prim.bind`): drop the
reduced axes, reduce each input block over their physical dimensions, and
fold the contributions of each output coordinate with the combiner. -/
def reducer_tree_rule (kern : Arr → List Nat → Arr) (binop : Arr → Arr → Arr)
    (st : TreeState) (axes : List Nat) : Except TreeErr TreeState := do
  let outTds := (st.treedefs.enum.filter (fun p => decide (p.1 ∉ axes))).map (·.2)
  let outLs := (st.leafshapes.enum.filter (fun p => decide (p.1 ∉ axes))).map (·.2)
  let nodes0 := (iter_leaf_coords outTds).map (fun c => (c, ([] : List Arr)))
  let nodes ← accumExcept (dropAxes axes)
    (reducerLeafValue kern st.leafshapes st.leaves axes)
    (iter_leaf_coords st.treedefs) nodes0
  let outLeaves ← reduceNodes binop nodes
  Except.ok ⟨outTds, outLs, outLeaves⟩

/-- Full rhs coordinates of a contraction term: the nonbatch-noncontracting
coordinates with the paired lhs contracting coordinates inserted, prefixed by
the lhs batch coordinates (source lines 962-965). -/
def dotRhsCoords (lhsContracting rhsContracting batch : List Nat) (lc rnb : Coords) : Coords :=
  lc.take batch.length
    ++ (lhsContracting.zip rhsContracting).foldl
      (fun acc p => pyInsert acc p.2 (lc.getD p.1 0)) rnb

/-- Output coordinates of a contraction term: batch and remaining lhs
partition indices, then remaining rhs partition indices. -/
def dotOutCoords (batch lhsRemaining rhsRemaining : List Nat) (lc rhsC : Coords) : Coords :=
  (batch ++ lhsRemaining).map (fun i => lc.getD i 0)
    ++ rhsRemaining.map (fun i => rhsC.getD i 0)

/-- The kernel call of the contraction rule for one pair of lhs coordinates
and rhs nonbatch coordinates (source lines 970-981), including the source's
assert that both sides map the batch axes to the same physical dimensions. -/
def dotLeafValue (lhs rhs : TreeState) (lhsContracting rhsContracting batch : List Nat)
    (pr : Coords × Coords) : Except TreeErr Arr := do
  let lc := pr.1
  let rhsC := dotRhsCoords lhsContracting rhsContracting batch lc pr.2
  let leafLhsContracting := axes_for_leaf lhs.leafshapes lc lhsContracting
  let leafRhsContracting := axes_for_leaf rhs.leafshapes rhsC rhsContracting
  let leafBatch := axes_for_leaf lhs.leafshapes lc batch
  if leafBatch ≠ axes_for_leaf rhs.leafshapes rhsC batch then
    Except.error TreeErr.AssertionFailure
  else do
    let lleaf ← dictGet lhs.leaves lc
    let rleaf ← dictGet rhs.leaves rhsC
    Except.ok (dotGeneralArr lleaf rleaf leafLhsContracting leafRhsContracting
      leafBatch leafBatch)

/-- Remaining (non-contracting, non-batch) lhs axes of a contraction. -/
def dotLhsRemaining (lhs : TreeState) (lhsContracting batch : List Nat) : List Nat :=
  (List.range lhs.treedefs.length).filter
    (fun i => decide (i ∉ lhsContracting ∧ i ∉ batch))

/-- Remaining (non-contracting, non-batch) rhs axes of a contraction. -/
def dotRhsRemaining (rhs : TreeState) (rhsContracting batch : List Nat) : List Nat :=
  (List.range rhs.treedefs.length).filter
    (fun i => decide (i ∉ rhsContracting ∧ i ∉ batch))

/-- Enumeration the contraction rule loops over: every lhs coordinate paired
with every rhs nonbatch-noncontracting coordinate, lhs-major. -/
def dotPairs (lhs rhs : TreeState) (rhsContracting batch : List Nat) :
    List (Coords × Coords) :=
  (iter_leaf_coords lhs.treedefs).flatMap (fun lc =>
    (iter_leaf_coords ((dotRhsRemaining rhs rhsContracting batch).map
      (fun i => rhs.treedefs.getD i TRIVIAL_TREEDEF))).map (fun rnb => (lc, rnb)))

/-- Output coordinate of one enumerated contraction pair. -/
def dotKeyf (lhs rhs : TreeState) (lhsContracting rhsContracting batch : List Nat)
    (pr : Coords × Coords) : Coords :=
  dotOutCoords batch (dotLhsRemaining lhs lhsContracting batch)
    (dotRhsRemaining rhs rhsContracting batch) pr.1
    (dotRhsCoords lhsContracting rhsContracting batch pr.1 pr.2)

/-- Source `dot_general_tree_rule`: check exact structural agreement of every
batch and contracting axis pair, then enumerate all lhs coordinates against
all rhs nonbatch-noncontracting coordinates, issue one contraction kernel
call per pair, and sum the contributions landing on each output coordinate. -/
def dot_general_tree_rule (lhs rhs : TreeState)
    (dn : (List Nat × List Nat) × (List Nat × List Nat)) : Except TreeErr TreeState := do
  let lhsContracting := dn.1.1
  let rhsContracting := dn.1.2
  let batch ← if dn.2.1 = dn.2.2 then Except.ok dn.2.1
    else Except.error TreeErr.SizeUnpackError
  let _ ← (batch.zip batch ++ lhsContracting.zip rhsContracting).mapM (fun p =>
    if lhs.treedefs.getD p.1 TRIVIAL_TREEDEF ≠ rhs.treedefs.getD p.2 TRIVIAL_TREEDEF then
      Except.error TreeErr.ConflictingStructure
    else if lhs.leafshapes.getD p.1 [] ≠ rhs.leafshapes.getD p.2 [] then
      Except.error TreeErr.ConflictingShape
    else Except.ok ())
  let lhsRemaining := dotLhsRemaining lhs lhsContracting batch
  let rhsRemaining := dotRhsRemaining rhs rhsContracting batch
  let outTds := (batch ++ lhsRemaining).map (fun i => lhs.treedefs.getD i TRIVIAL_TREEDEF)
    ++ rhsRemaining.map (fun i => rhs.treedefs.getD i TRIVIAL_TREEDEF)
  let outLs := (batch ++ lhsRemaining).map (fun i => lhs.leafshapes.getD i [])
    ++ rhsRemaining.map (fun i => rhs.leafshapes.getD i [])
  let nodes0 := (iter_leaf_coords outTds).map (fun c => (c, ([] : List Arr)))
  let nodes ← accumExcept (dotKeyf lhs rhs lhsContracting rhsContracting batch)
    (dotLeafValue lhs rhs lhsContracting rhsContracting batch)
    (dotPairs lhs rhs rhsContracting batch) nodes0
  let outLeaves ← reduceNodes addArr nodes
  Except.ok ⟨outTds, outLs, outLeaves⟩

/-- Elementwise-addition kernel in n-ary form (the `prim.bind` handed to
`naryop_tree_rule` for `lax.add_p`). -/
def addK : List Arr → Arr := naryKernel (fun l => l.foldl (· + ·) 0)

/-- Leaf values' shapes and data, dtype forgotten: the observation under
which two containers are compared "in values and structure". -/
def stripArr (t : PyTree Arr) : PyTree (Shape × List Int) :=
  t.mapLeaves (fun a => PyTree.leaf (a.shape, a.data))

/-- Scalar block `1.0` (value of `'x'` in the spec's running container). -/
def arrX : Arr := ⟨[], DType.float32, [1]⟩

/-- Flat block `[2.0]` (value of `'y'` in the spec's running container). -/
def arrY : Arr := ⟨[1], DType.float32, [2]⟩

/-- Block `[[3.0, 4.0]]` (value of `'z'` in the spec's running container). -/
def arrZ : Arr := ⟨[1, 2], DType.float32, [3, 4]⟩

/-- The spec's running container `{'x': 1.0, 'y': [2.0], 'z': [[3.0, 4.0]]}`. -/
def exTreeXYZ : PyTree Arr :=
  PyTree.cons "x" (PyTree.leaf arrX)
    (PyTree.cons "y" (PyTree.leaf arrY)
      (PyTree.cons "z" (PyTree.leaf arrZ) (PyTree.nil "dict")))

/-- Structured value built from the running container by the conversion
boundary. -/
def stXYZ : TreeState :=
  ⟨[tree_structure exTreeXYZ], [[[], [1], [1, 2]]],
   [([0], arrX), ([1], arrY), ([2], arrZ)]⟩

/-- Treedef obtained by flattening `{'a': 0, 'b': 0}`. -/
def tdAB : TreeDef :=
  PyTree.cons "a" (PyTree.leaf ()) (PyTree.cons "b" (PyTree.leaf ()) (PyTree.nil "dict"))

/-- Treedef obtained by flattening `{'c': 0, 'd': 0}`. -/
def tdCD : TreeDef :=
  PyTree.cons "c" (PyTree.leaf ()) (PyTree.cons "d" (PyTree.leaf ()) (PyTree.nil "dict"))

/-- Scalar block used to populate small example operands. -/
def arrS : Arr := ⟨[], DType.float32, [5]⟩

/-- Rank-1 structured value whose single axis carries the `{'a','b'}`
descriptor (two scalar segments). -/
def stABex : TreeState := ⟨[tdAB], [[[], []]], [([0], arrS), ([1], arrS)]⟩

/-- Rank-1 structured value whose single axis carries the `{'c','d'}`
descriptor (two scalar segments). -/
def stCDex : TreeState := ⟨[tdCD], [[[], []]], [([0], arrS), ([1], arrS)]⟩

/-- Block of shape `(1,1)`. -/
def arrB11 : Arr := ⟨[1, 1], DType.float32, [7]⟩

/-- Block of shape `(2,1)`. -/
def arrB21 : Arr := ⟨[2, 1], DType.float32, [7, 8]⟩

/-- Rank-2 operand: axis 0 carries `{'a','b'}` with segments `((1,),(2,))`,
axis 1 carries `{'a','b'}` with segments `((1,),(1,))`. -/
def opPex : TreeState :=
  ⟨[tdAB, tdAB], [[[1], [2]], [[1], [1]]],
   [([0, 0], arrB11), ([0, 1], arrB11), ([1, 0], arrB21), ([1, 1], arrB21)]⟩

/-- Rank-2 operand: axis 0 carries `{'a','b'}` with segments `((2,),(1,))`
(a distinct non-trivial segment sequence from `opPex`'s), axis 1 carries
`{'c','d'}` (a distinct non-trivial treedef from `opPex`'s). -/
def opQex : TreeState :=
  ⟨[tdAB, tdCD], [[[2], [1]], [[1], [1]]],
   [([0, 0], arrB21), ([0, 1], arrB21), ([1, 0], arrB11), ([1, 1], arrB11)]⟩

/-- Leaves of a one-axis operand holding the single flat block `[5.0]`. -/
def lvsOneEx : Leaves := [([0], ⟨[1], DType.float32, [5]⟩)]

/-- Leaves of a one-axis operand holding the single flat block of length 4. -/
def lvsFourEx : Leaves := [([0], ⟨[4], DType.int32, [9, 8, 7, 6]⟩)]

/-- Target segment layout `((1,), (1,2), ())` used to exercise a split. -/
def outLsSplitEx : LeafShapes := [[[1], [1, 2], []]]

/-- Blocks of `lvsFourEx` after splitting axis 0 into `outLsSplitEx`. -/
def lvsFourSplitEx : Leaves :=
  [([0], ⟨[1], DType.int32, [9]⟩), ([1], ⟨[1, 2], DType.int32, [8, 7]⟩),
   ([2], ⟨[], DType.int32, [6]⟩)]

/-- Structured value whose single axis has a trivial treedef but a rank-2
segment `(1,1)` (so the axis is not trivial in the `is_trivial_axis` sense). -/
def stSqEx : TreeState :=
  ⟨[TRIVIAL_TREEDEF], [[[1, 1]]], [([0], ⟨[1, 1], DType.float32, [5]⟩)]⟩

/-- Block dict with two blocks of different element types (shapes both
scalar). -/
def lvsMixedEx : Leaves :=
  [([0], ⟨[], DType.float32, [1]⟩), ([1], ⟨[], DType.int32, [2]⟩)]

/-- Container `{'a': int32 1, 'b': float32 2}` with mixed leaf dtypes. -/
def mixedTree : PyTree Arr :=
  PyTree.cons "a" (PyTree.leaf ⟨[], DType.int32, [1]⟩)
    (PyTree.cons "b" (PyTree.leaf ⟨[], DType.float32, [2]⟩) (PyTree.nil "dict"))

/-- Rank-2 stack-like operand: trivial axis 0 of length 1, axis 1 carrying
`{'a','b'}` with segments `((), (2,))`. -/
def opRex : TreeState :=
  ⟨[TRIVIAL_TREEDEF, tdAB], [[[1]], [[], [2]]],
   [([0, 0], ⟨[1], DType.int32, [0]⟩), ([0, 1], ⟨[1, 2], DType.int32, [1, 2]⟩)]⟩

/-- Second stack-like operand of the same structure as `opRex`. -/
def opSex : TreeState :=
  ⟨[TRIVIAL_TREEDEF, tdAB], [[[1]], [[], [2]]],
   [([0, 0], ⟨[1], DType.int32, [3]⟩), ([0, 1], ⟨[1, 2], DType.int32, [4, 5]⟩)]⟩

/-- Result of concatenating `opRex` and `opSex` along axis 0. -/
def stRSex : TreeState :=
  ⟨[TRIVIAL_TREEDEF, tdAB], [[[2]], [[], [2]]],
   [([0, 0], ⟨[2], DType.int32, [0, 3]⟩), ([0, 1], ⟨[2, 2], DType.int32, [1, 2, 4, 5]⟩)]⟩

/-! General lemmas about the `Except` monad, `mapM` loops, association lists
and the accumulation pattern shared by the reduction and contraction rules. -/

theorem exbind_ok {α β : Type} (a : α) (f : α → Except TreeErr β) :
    (Except.ok a : Except TreeErr α) >>= f = f a := rfl

theorem exbind_error {α β : Type} (e : TreeErr) (f : α → Except TreeErr β) :
    (Except.error e : Except TreeErr α) >>= f = Except.error e := rfl

theorem expure_def {β : Type} (b : β) : (pure b : Except TreeErr β) = Except.ok b := rfl

theorem dictGet_ok_iff (lvs : Leaves) (k : Coords) (v : Arr) :
    dictGet lvs k = Except.ok v ↔ assocLookup lvs k = some v := by
  unfold dictGet
  cases h : assocLookup lvs k <;> simp

theorem mapM_ok_mem {α β : Type} (f : α → Except TreeErr β) :
    ∀ (L : List α) (out : List β), L.mapM f = Except.ok out →
      ∀ x ∈ L, ∃ y, f x = Except.ok y ∧ y ∈ out := by
  intro L
  induction L with
  | nil => intro out _ x hx; cases hx
  | cons a t ih =>
    intro out h x hx
    rw [List.mapM_cons] at h
    cases hfa : f a with
    | error e => rw [hfa, exbind_error] at h; cases h
    | ok v =>
      rw [hfa, exbind_ok] at h
      cases hmt : t.mapM f with
      | error e => rw [hmt, exbind_error] at h; cases h
      | ok vs =>
        rw [hmt, exbind_ok, expure_def] at h
        cases h
        rcases List.mem_cons.mp hx with rfl | hx
        · exact ⟨v, hfa, by simp⟩
        · obtain ⟨y, h1, h2⟩ := ih vs hmt x hx
          exact ⟨y, h1, by simp [h2]⟩

theorem mapM_error_mem {α β : Type} (f : α → Except TreeErr β) :
    ∀ (L : List α) (e : TreeErr), L.mapM f = Except.error e →
      ∃ x ∈ L, f x = Except.error e := by
  intro L
  induction L with
  | nil => intro e h; rw [List.mapM_nil] at h; cases h
  | cons a t ih =>
    intro e h
    rw [List.mapM_cons] at h
    cases hfa : f a with
    | error e1 =>
      rw [hfa, exbind_error] at h
      cases h
      exact ⟨a, by simp, hfa⟩
    | ok v =>
      rw [hfa, exbind_ok] at h
      cases hmt : t.mapM f with
      | error e1 =>
        rw [hmt, exbind_error] at h
        cases h
        obtain ⟨x, hx, hfx⟩ := ih e hmt
        exact ⟨x, by simp [hx], hfx⟩
      | ok vs => rw [hmt, exbind_ok, expure_def] at h; cases h

theorem mapM_error_of_uniform {α β : Type} (f : α → Except TreeErr β) (E : TreeErr) :
    ∀ (L : List α), (∃ x ∈ L, ∃ e, f x = Except.error e) →
      (∀ x ∈ L, ∀ e, f x = Except.error e → e = E) →
      L.mapM f = Except.error E := by
  intro L
  induction L with
  | nil => intro hex _; obtain ⟨x, hx, _⟩ := hex; cases hx
  | cons a t ih =>
    intro hex huni
    rw [List.mapM_cons]
    cases hfa : f a with
    | error e =>
      have : e = E := huni a (by simp) e hfa
      subst this
      rw [exbind_error]
    | ok v =>
      rw [exbind_ok]
      have hext : ∃ x ∈ t, ∃ e, f x = Except.error e := by
        obtain ⟨x, hx, e, hfx⟩ := hex
        rcases List.mem_cons.mp hx with rfl | hx
        · rw [hfa] at hfx; cases hfx
        · exact ⟨x, hx, e, hfx⟩
      have := ih hext (fun x hx e hfx => huni x (by simp [hx]) e hfx)
      rw [this, exbind_error]

theorem mapM_error_at {α β : Type} (f : α → Except TreeErr β) (d : α) (E : TreeErr) :
    ∀ (L : List α) (i : Nat), i < L.length →
      (∀ j, j < i → ∃ y, f (L.getD j d) = Except.ok y) →
      f (L.getD i d) = Except.error E →
      L.mapM f = Except.error E := by
  intro L
  induction L with
  | nil => intro i hi _ _; exact absurd hi (by simp)
  | cons a t ih =>
    intro i hi hpre herr
    rw [List.mapM_cons]
    cases i with
    | zero =>
      simp only [List.getD] at herr
      rw [show (a :: t).get? 0 = some a from rfl] at herr
      simp only [Option.getD_some] at herr
      rw [herr, exbind_error]
    | succ i0 =>
      obtain ⟨y, hy⟩ := hpre 0 (Nat.succ_pos i0)
      simp only [List.getD_eq_getElem?_getD, List.getElem?_cons_zero, Option.getD_some] at hy
      rw [hy, exbind_ok]
      have hrec : t.mapM f = Except.error E := by
        apply ih i0 (by simpa using hi)
        · intro j hj
          have := hpre (j + 1) (by omega)
          simpa using this
        · simpa using herr
      rw [hrec, exbind_error]

theorem mapM_ok_getD {α β : Type} (f : α → Except TreeErr β) (d : α) (d1 : β) :
    ∀ (L : List α) (out : List β), L.mapM f = Except.ok out →
      out.length = L.length ∧
      ∀ i, i < L.length → f (L.getD i d) = Except.ok (out.getD i d1) := by
  intro L
  induction L with
  | nil =>
    intro out h
    rw [List.mapM_nil, expure_def] at h
    cases h
    exact ⟨rfl, fun i hi => absurd hi (by simp)⟩
  | cons a t ih =>
    intro out h
    rw [List.mapM_cons] at h
    cases hfa : f a with
    | error e => rw [hfa, exbind_error] at h; cases h
    | ok v =>
      rw [hfa, exbind_ok] at h
      cases hmt : t.mapM f with
      | error e => rw [hmt, exbind_error] at h; cases h
      | ok vs =>
        rw [hmt, exbind_ok, expure_def] at h
        cases h
        obtain ⟨hlen, hall⟩ := ih vs hmt
        refine ⟨by simp [hlen], fun i hi => ?_⟩
        cases i with
        | zero => simpa using hfa
        | succ i0 =>
          have := hall i0 (by simpa using hi)
          simpa using this

theorem mapM_ok_of_all {α β : Type} (f : α → Except TreeErr β) :
    ∀ (L : List α), (∀ x ∈ L, ∃ y, f x = Except.ok y) →
      ∃ out, L.mapM f = Except.ok out := by
  intro L
  induction L with
  | nil => intro _; exact ⟨[], rfl⟩
  | cons a t ih =>
    intro hall
    obtain ⟨v, hv⟩ := hall a (by simp)
    obtain ⟨vs, hvs⟩ := ih (fun x hx => hall x (by simp [hx]))
    refine ⟨v :: vs, ?_⟩
    rw [List.mapM_cons, hv, exbind_ok, hvs, exbind_ok, expure_def]

theorem dedup_const {α : Type} [DecidableEq α] (m : α) :
    ∀ (l : List α), (∀ x ∈ l, x = m) → l ≠ [] → l.dedup = [m] := by
  intro l
  induction l with
  | nil => intro _ h; exact absurd rfl h
  | cons a t ih =>
    intro hall _
    have ha : a = m := hall a (by simp)
    subst ha
    cases t with
    | nil => simp
    | cons b t2 =>
      have ht : (b :: t2).dedup = [a] := by
        apply ih (fun x hx => hall x (by simp [hx])) (by simp)
      have hmem : a ∈ b :: t2 := by
        have hb : b = a := hall b (by simp)
        simp [hb]
      rw [List.dedup_cons_of_mem hmem, ht]

theorem assocAppend_lookup :
    ∀ (d : List (Coords × List Arr)) (k : Coords) (a : Arr) (d1 : List (Coords × List Arr)),
      assocAppendArr d k a = Except.ok d1 →
      ∀ k0, assocLookup d1 k0 =
        if k0 = k then (assocLookup d k0).map (fun l => l ++ [a]) else assocLookup d k0 := by
  intro d
  induction d with
  | nil => intro k a d1 h; cases h
  | cons p rest ih =>
    intro k a d1 h k0
    obtain ⟨k1, v⟩ := p
    unfold assocAppendArr at h
    by_cases hk1 : k1 = k
    · rw [if_pos hk1] at h
      cases h
      subst hk1
      unfold assocLookup
      by_cases hk0 : k1 = k0
      · subst hk0
        rw [if_pos rfl, if_pos rfl, if_pos rfl]
        simp
      · rw [if_neg hk0, if_neg hk0]
        rw [if_neg (fun hc : k0 = k1 => hk0 hc.symm)]
    · rw [if_neg hk1] at h
      cases hrec : assocAppendArr rest k a with
      | error e => rw [hrec] at h; cases h
      | ok rest1 =>
        rw [hrec] at h
        cases h
        unfold assocLookup
        by_cases hk0 : k1 = k0
        · subst hk0
          rw [if_pos rfl, if_pos rfl]
          rw [if_neg (fun hc : k1 = k => hk1 hc)]
        · rw [if_neg hk0, if_neg hk0]
          exact ih k a rest1 hrec k0

theorem accumExcept_lookup {ι : Type} (keyf : ι → Coords) (valf : ι → Except TreeErr Arr) :
    ∀ (L : List ι) (nodes nodes1 : List (Coords × List Arr)),
      accumExcept keyf valf L nodes = Except.ok nodes1 →
      ∀ k, assocLookup nodes1 k =
        (assocLookup nodes k).map (fun l =>
          l ++ (L.filter (fun i => decide (keyf i = k))).map (fun i => exceptValArr (valf i))) := by
  intro L
  induction L with
  | nil =>
    intro nodes nodes1 h k
    unfold accumExcept at h
    cases h
    cases assocLookup nodes k <;> simp
  | cons i rest ih =>
    intro nodes nodes1 h k
    unfold accumExcept at h
    cases hv : valf i with
    | error e => simp only [hv] at h; cases h
    | ok v =>
      simp only [hv] at h
      cases happ : assocAppendArr nodes (keyf i) v with
      | error e => simp only [happ] at h; cases h
      | ok n1 =>
        simp only [happ] at h
        have hlk := ih n1 nodes1 h k
        have hl1 := assocAppend_lookup nodes (keyf i) v n1 happ k
        rw [hlk, hl1]
        by_cases hkey : keyf i = k
        · rw [if_pos (by rw [hkey]), List.filter_cons_of_pos (by simp [hkey])]
          cases hnk : assocLookup nodes k <;>
            simp [hv, exceptValArr, List.append_assoc]
        · rw [if_neg (fun hc : k = keyf i => hkey (hc ▸ rfl)),
            List.filter_cons_of_neg (by simp [hkey])]

theorem accumExcept_ok_vals {ι : Type} (keyf : ι → Coords) (valf : ι → Except TreeErr Arr) :
    ∀ (L : List ι) (nodes nodes1 : List (Coords × List Arr)),
      accumExcept keyf valf L nodes = Except.ok nodes1 →
      ∀ i ∈ L, ∃ v, valf i = Except.ok v := by
  intro L
  induction L with
  | nil => intro nodes nodes1 _ i hi; cases hi
  | cons a rest ih =>
    intro nodes nodes1 h i hi
    unfold accumExcept at h
    cases hv : valf a with
    | error e => simp only [hv] at h; cases h
    | ok v =>
      simp only [hv] at h
      cases happ : assocAppendArr nodes (keyf a) v with
      | error e => simp only [happ] at h; cases h
      | ok n1 =>
        simp only [happ] at h
        rcases List.mem_cons.mp hi with rfl | hi
        · exact ⟨v, hv⟩
        · exact ih n1 nodes1 h i hi

theorem reduceNodes_lookup (binop : Arr → Arr → Arr) :
    ∀ (nodes : List (Coords × List Arr)) (out : Leaves),
      reduceNodes binop nodes = Except.ok out →
      ∀ k l, assocLookup nodes k = some l →
        ∃ h t, l = h :: t ∧ assocLookup out k = some (t.foldl binop h) := by
  intro nodes
  induction nodes with
  | nil => intro out _ k l hl; cases hl
  | cons p rest ih =>
    intro out h k l hl
    obtain ⟨k1, v⟩ := p
    unfold reduceNodes at h
    rw [List.mapM_cons] at h
    cases v with
    | nil => simp only [exbind_error] at h; cases h
    | cons vh vt =>
      simp only [exbind_ok] at h
      cases hrest : List.mapM (fun p : Coords × List Arr =>
          match p.2 with
          | [] => Except.error TreeErr.EmptyReduce
          | h :: t => Except.ok (p.1, t.foldl binop h)) rest with
      | error e => rw [hrest, exbind_error] at h; cases h
      | ok outRest =>
        rw [hrest, exbind_ok, expure_def] at h
        cases h
        unfold assocLookup at hl ⊢
        by_cases hk : k1 = k
        · rw [if_pos hk] at hl ⊢
          cases hl
          exact ⟨vh, vt, rfl, rfl⟩
        · rw [if_neg hk] at hl ⊢
          exact ih outRest hrest k l hl

theorem nodes0_lookup :
    ∀ (l : List Coords) (k : Coords), k ∈ l →
      assocLookup (l.map (fun c => (c, ([] : List Arr)))) k = some [] := by
  intro l
  induction l with
  | nil => intro k hk; cases hk
  | cons a t ih =>
    intro k hk
    unfold assocLookup
    by_cases ha : a = k
    · simp only [List.map_cons]
      rw [if_pos ha]
    · simp only [List.map_cons]
      rw [if_neg ha]
      rcases List.mem_cons.mp hk with rfl | hk
      · exact absurd rfl ha
      · exact ih k hk

/-! Lemmas on the axis-fixing loop of the n-ary rule (for claim C1). -/

theorem naryopFixGo_notMem (outLs ls : LeafShapes) :
    ∀ (axes : List Nat) (lsAcc : LeafShapes) (lvs : Leaves) (ls1 : LeafShapes) (lvs1 : Leaves),
      naryopFixGo outLs ls axes lsAcc lvs = Except.ok (ls1, lvs1) →
      ∀ a, a ∉ axes → ls1.getD a [] = lsAcc.getD a [] := by
  intro axes
  induction axes with
  | nil =>
    intro lsAcc lvs ls1 lvs1 h a _
    unfold naryopFixGo at h
    cases h
    rfl
  | cons b rest ih =>
    intro lsAcc lvs ls1 lvs1 h a ha
    have hb : a ≠ b := fun hc => ha (by simp [hc])
    have hrest : a ∉ rest := fun hc => ha (by simp [hc])
    unfold naryopFixGo at h
    by_cases hcond : ls.getD b [] ≠ outLs.getD b [] ∧ axis_length (ls.getD b []) ≠ 1
    · rw [if_pos hcond] at h
      cases hsplit : split_leaves ls lvs b (outLs.getD b []) with
      | error e => rw [hsplit] at h; cases h
      | ok lvsb =>
        rw [hsplit] at h
        have := ih (lsAcc.set b (outLs.getD b [])) lvsb ls1 lvs1 h a hrest
        rw [this]
        simp [List.getD_eq_getElem?_getD, List.getElem?_set_ne (fun hc : b = a => hb hc.symm)]
    · rw [if_neg hcond] at h
      exact ih lsAcc lvs ls1 lvs1 h a hrest

theorem naryopFixGo_mem (outLs ls : LeafShapes) :
    ∀ (axes : List Nat) (lsAcc : LeafShapes) (lvs : Leaves) (ls1 : LeafShapes) (lvs1 : Leaves),
      axes.Nodup →
      naryopFixGo outLs ls axes lsAcc lvs = Except.ok (ls1, lvs1) →
      ∀ a ∈ axes, a < lsAcc.length →
        ls1.getD a [] =
          if ls.getD a [] ≠ outLs.getD a [] ∧ axis_length (ls.getD a []) ≠ 1
          then outLs.getD a [] else lsAcc.getD a [] := by
  intro axes
  induction axes with
  | nil => intro lsAcc lvs ls1 lvs1 _ _ a ha; cases ha
  | cons b rest ih =>
    intro lsAcc lvs ls1 lvs1 hnd h a ha hlen
    have hndr : rest.Nodup := (List.nodup_cons.mp hnd).2
    rcases List.mem_cons.mp ha with rfl | har
    · have hnotr : a ∉ rest := (List.nodup_cons.mp hnd).1
      unfold naryopFixGo at h
      by_cases hcond : ls.getD a [] ≠ outLs.getD a [] ∧ axis_length (ls.getD a []) ≠ 1
      · rw [if_pos hcond] at h
        cases hsplit : split_leaves ls lvs a (outLs.getD a []) with
        | error e => rw [hsplit] at h; cases h
        | ok lvsb =>
          rw [hsplit] at h
          have := naryopFixGo_notMem outLs ls rest (lsAcc.set a (outLs.getD a []))
            lvsb ls1 lvs1 h a hnotr
          rw [this, if_pos hcond]
          simp [List.getD_eq_getElem?_getD, List.getElem?_set_self hlen]
      · rw [if_neg hcond] at h
        have := naryopFixGo_notMem outLs ls rest lsAcc lvs ls1 lvs1 h a hnotr
        rw [this, if_neg hcond]
    · have hb : a ≠ b := fun hc => (List.nodup_cons.mp hnd).1 (hc ▸ har)
      unfold naryopFixGo at h
      by_cases hcond : ls.getD b [] ≠ outLs.getD b [] ∧ axis_length (ls.getD b []) ≠ 1
      · rw [if_pos hcond] at h
        cases hsplit : split_leaves ls lvs b (outLs.getD b []) with
        | error e => rw [hsplit] at h; cases h
        | ok lvsb =>
          rw [hsplit] at h
          have := ih (lsAcc.set b (outLs.getD b [])) lvsb ls1 lvs1 hndr h a har
            (by simpa using hlen)
          rw [this]
          have hget : (lsAcc.set b (outLs.getD b [])).getD a [] = lsAcc.getD a [] := by
            simp [List.getD_eq_getElem?_getD, List.getElem?_set_ne (fun hc : b = a => hb hc.symm)]
          rw [hget]
      · rw [if_neg hcond] at h
        exact ih lsAcc lvs ls1 lvs1 hndr h a har hlen

theorem dictGet_error (lvs : Leaves) (k : Coords) (e : TreeErr) :
    dictGet lvs k = Except.error e → e = TreeErr.MissingKey := by
  unfold dictGet
  cases assocLookup lvs k
  · intro h
    cases h
    rfl
  · intro h
    cases h

theorem squeezeArr_error (a : Arr) (dims : List Nat) (e : TreeErr) :
    squeezeArr a dims = Except.error e → e = TreeErr.KernelError := by
  unfold squeezeArr
  split
  · intro h
    cases h
  · intro h
    cases h
    rfl

theorem squeezeArr_ok_spec (a : Arr) (dims : List Nat) (b : Arr) :
    squeezeArr a dims = Except.ok b →
    b.shape = (a.shape.enum.filter (fun q => decide (q.1 ∉ dims))).map (·.2) ∧
    b.dtype = a.dtype ∧ b.data = a.data := by
  unfold squeezeArr
  split <;> intro h <;> cases h
  exact ⟨rfl, rfl, rfl⟩

/-- C1, corrected.  In the n-ary elementwise rule's axis-fixing phase, for
every operand and every axis, the operand's segment layout is replaced by the
adopted result layout (via the axis split) precisely when its own layout at
that axis differs from the adopted result layout AND the operand's axis
length there is NOT 1; otherwise (in particular in the axis-length-1
broadcast case the claim describes) the layout — and hence the block
partition — is left unchanged. -/
theorem C1_amended_split_iff (outLs ls : LeafShapes) (lvs : Leaves) (ndim axis : Nat)
    (ls1 : LeafShapes) (lvs1 : Leaves)
    (hlen : ls.length = ndim) (haxis : axis < ndim)
    (h : naryopFixOperand outLs ndim ls lvs = Except.ok (ls1, lvs1)) :
    ls1.getD axis [] =
      if ls.getD axis [] ≠ outLs.getD axis [] ∧ axis_length (ls.getD axis []) ≠ 1
      then outLs.getD axis [] else ls.getD axis [] := by
  unfold naryopFixOperand at h
  exact naryopFixGo_mem outLs ls (List.range ndim) ls lvs ls1 lvs1 (List.nodup_range ndim)
    h axis (List.mem_range.mpr haxis) (by omega)

/-- C1 (counterexample to the claim as stated).  With adopted result layout
`((), ())` and an operand whose only axis has the single segment `(1,)` (so
its layout differs from the adopted one and its axis length is exactly 1 —
the situation in which the claim asserts a split is performed), the fixing
loop of the n-ary rule performs no split: layout and blocks are returned
unchanged, and the layout still differs from the adopted one. -/
theorem C1_counterexample :
    naryopFixOperand [[[], []]] 1 [[[1]]] lvsOneEx = Except.ok ([[[1]]], lvsOneEx) ∧
    ([[1]] : List Shape) ≠ [[], []] ∧ axis_length [[1]] = 1 :=
  ⟨by decide, by decide, by decide⟩

/-- C1 (witness).  The amended characterization applied to a concrete
operand whose flat axis of length 4 differs from the adopted layout
`((1,), (1,2), ())`: the axis IS split to the adopted layout. -/
theorem C1_witness :
    ([[[1], [1, 2], []]] : LeafShapes).getD 0 [] =
      if ([[[4]]] : LeafShapes).getD 0 [] ≠ outLsSplitEx.getD 0 [] ∧
          axis_length (([[[4]]] : LeafShapes).getD 0 []) ≠ 1
      then outLsSplitEx.getD 0 [] else ([[[4]]] : LeafShapes).getD 0 [] :=
  C1_amended_split_iff outLsSplitEx [[[4]]] lvsFourEx 1 0 [[[1], [1, 2], []]]
    lvsFourSplitEx (by decide) (by decide) (by decide)

/-- C3, corrected.  The construction-time check of `TreeTracer.__init__`
validates exactly: matching `treedefs`/`leafshapes` lengths, one segment per
leaf of each axis descriptor, non-emptiness of the block dict, and — for
every coordinate of the full Cartesian product — the presence of a block of
the expected concatenated segment shape.  Uniformity of the element type
across blocks is NOT among the checked conditions. -/
theorem C3_amended_checks_iff (tds : List TreeDef) (ls : LeafShapes) (lvs : Leaves) :
    treeTracerCheck tds ls lvs = true ↔
      (tds.length = ls.length ∧
       (∀ p ∈ tds.zip ls, p.1.numLeaves = p.2.length) ∧
       lvs ≠ [] ∧
       ∀ coords ∈ iter_leaf_coords tds,
         ∃ a, assocLookup lvs coords = some a ∧ a.shape = leafshape ls coords) := by
  unfold treeTracerCheck
  simp only [Bool.and_eq_true, List.all_eq_true, decide_eq_true_eq, Bool.not_eq_true',
    List.isEmpty_eq_false_iff_exists_mem]
  constructor
  · rintro ⟨⟨⟨h1, h2⟩, h3⟩, h4⟩
    refine ⟨h1, h2, ?_, ?_⟩
    · obtain ⟨x, hx⟩ := h3
      intro hc
      rw [hc] at hx
      cases hx
    · intro coords hc
      have := h4 coords hc
      cases hlk : assocLookup lvs coords with
      | none => rw [hlk] at this; cases this
      | some a =>
        rw [hlk] at this
        exact ⟨a, rfl, by simpa using this⟩
  · rintro ⟨h1, h2, h3, h4⟩
    refine ⟨⟨⟨h1, h2⟩, ?_⟩, ?_⟩
    · cases lvs with
      | nil => exact absurd rfl h3
      | cons x t => exact ⟨x, by simp⟩
    · intro coords hc
      obtain ⟨a, hlk, hsh⟩ := h4 coords hc
      rw [hlk]
      simpa using hsh

/-- C3 (counterexample to the claim as stated).  A state whose two blocks
have different element types (`float32` and `int32`) passes the entire
construction-time check, so the element-type-uniformity invariant is not
checked at construction. -/
theorem C3_counterexample :
    treeTracerCheck [tdAB] [[[], []]] lvsMixedEx = true ∧
    dtypesUniform lvsMixedEx = false :=
  ⟨by decide, by decide⟩

/-- C9, confirmed.  An axis split fails with `ShapeMismatch` exactly when the
total length of the target segments differs from the block's physical extent
along the split axis, and the value-level split requires the source axis to
hold a single one-dimensional segment (failing on anything else). -/
theorem C9_split_errors :
    (∀ (a : Arr) (axis : Nat) (shapes : List Shape),
       split_leaf a axis shapes = Except.error TreeErr.ShapeMismatch ↔
         axis_length shapes ≠ a.shape.getD axis 0) ∧
    (∀ (ls : LeafShapes) (lvs : Leaves) (axis : Nat) (shapes : List Shape),
       (ls.getD axis []).length ≠ 1 ∨ ((ls.getD axis []).getD 0 []).length ≠ 1 →
       split_leaves ls lvs axis shapes = Except.error TreeErr.InvalidSplitShapes) := by
  constructor
  · intro a axis shapes
    unfold split_leaf
    by_cases hc : axis_length shapes ≠ a.shape.getD axis 0
    · rw [if_pos hc]
      exact iff_of_true rfl hc
    · rw [if_neg hc]
      exact iff_of_false (by simp) hc
  · intro ls lvs axis shapes hc
    unfold split_leaves
    rw [if_pos hc]

/-- C9 (witness).  The requirement applied concretely: splitting an axis
that holds two segments is rejected. -/
theorem C9_witness :
    split_leaves [[[2], [2]]]
      [([0], ⟨[2], DType.int32, [1, 2]⟩), ([1], ⟨[2], DType.int32, [3, 4]⟩)] 0 [[1], [1]] =
      Except.error TreeErr.InvalidSplitShapes :=
  C9_split_errors.2 [[[2], [2]]]
    [([0], ⟨[2], DType.int32, [1, 2]⟩), ([1], ⟨[2], DType.int32, [3, 4]⟩)] 0 [[1], [1]]
    (by decide)

/-- C8, corrected.  The squeeze rule raises `InvalidSqueezeAxis` exactly when
some requested axis carries a non-trivial container descriptor — the
segment shape of the axis is NOT checked (so an axis that fails the full
`is_trivial_axis` test only through its segment shape is accepted).  On
success, every block's physical dimensions corresponding to the squeezed
logical axes are dropped, the data being unchanged. -/
theorem C8_amended_squeeze :
    (∀ (st : TreeState) (dimensions : List Nat),
       squeeze_tree_rule st dimensions = Except.error TreeErr.InvalidSqueezeAxis ↔
       ∃ p ∈ st.treedefs.enum, p.1 ∈ dimensions ∧ p.2 ≠ TRIVIAL_TREEDEF) ∧
    (∀ (st : TreeState) (dimensions : List Nat) (st1 : TreeState),
       squeeze_tree_rule st dimensions = Except.ok st1 →
       ∀ pr ∈ (iter_leaf_coords st.treedefs).zip
         (iter_leaf_coords ((st.treedefs.enum.filter
           (fun p => decide (p.1 ∉ dimensions))).map (·.2))),
         ∃ a b, assocLookup st.leaves pr.1 = some a ∧ (pr.2, b) ∈ st1.leaves ∧
           b.shape = (a.shape.enum.filter
             (fun q => decide (q.1 ∉ axes_for_leaf st.leafshapes pr.1 dimensions))).map (·.2) ∧
           b.data = a.data) := by
  constructor
  · intro st dimensions
    constructor
    · intro h
      by_contra hno
      push_neg at hno
      have hall : ∀ p ∈ st.treedefs.enum,
          ∃ y, (if p.1 ∈ dimensions ∧ p.2 ≠ TRIVIAL_TREEDEF then
            Except.error TreeErr.InvalidSqueezeAxis else Except.ok ()) = Except.ok y := by
        intro p hp
        refine ⟨(), ?_⟩
        rw [if_neg]
        rintro ⟨hd, hne⟩
        exact hne (hno p hp hd)
      obtain ⟨outChk, hchk⟩ := mapM_ok_of_all _ st.treedefs.enum hall
      unfold squeeze_tree_rule at h
      rw [hchk, exbind_ok] at h
      simp only [] at h
      cases hlv : ((iter_leaf_coords st.treedefs).zip (iter_leaf_coords
          ((st.treedefs.enum.filter (fun p => decide (p.1 ∉ dimensions))).map (·.2)))).mapM
          (fun pr => do
            let leaf ← dictGet st.leaves pr.1
            let squeezed ← squeezeArr leaf (axes_for_leaf st.leafshapes pr.1 dimensions)
            Except.ok (pr.2, squeezed)) with
      | ok outLvs => rw [hlv, exbind_ok] at h; cases h
      | error e =>
        rw [hlv, exbind_error] at h
        cases h
        obtain ⟨pr, _, hpr⟩ := mapM_error_mem _ _ _ hlv
        cases hg : dictGet st.leaves pr.1 with
        | error e1 =>
          rw [hg, exbind_error] at hpr
          cases hpr
          exact absurd (dictGet_error _ _ _ hg) (by intro hc; cases hc)
        | ok leaf =>
          rw [hg, exbind_ok] at hpr
          cases hsq : squeezeArr leaf (axes_for_leaf st.leafshapes pr.1 dimensions) with
          | error e2 =>
            rw [hsq, exbind_error] at hpr
            cases hpr
            exact absurd (squeezeArr_error _ _ _ hsq) (by intro hc; cases hc)
          | ok b => rw [hsq, exbind_ok] at hpr; cases hpr
    · rintro ⟨p, hp, hd, hne⟩
      have herr : st.treedefs.enum.mapM (fun p =>
          if p.1 ∈ dimensions ∧ p.2 ≠ TRIVIAL_TREEDEF then
            Except.error TreeErr.InvalidSqueezeAxis else Except.ok ()) =
          Except.error TreeErr.InvalidSqueezeAxis := by
        apply mapM_error_of_uniform
        · exact ⟨p, hp, TreeErr.InvalidSqueezeAxis, by rw [if_pos ⟨hd, hne⟩]⟩
        · intro x _ e hx
          by_cases hc : x.1 ∈ dimensions ∧ x.2 ≠ TRIVIAL_TREEDEF
          · rw [if_pos hc] at hx
            cases hx
            rfl
          · rw [if_neg hc] at hx
            cases hx
      unfold squeeze_tree_rule
      rw [herr, exbind_error]
  · intro st dimensions st1 h pr hpr
    unfold squeeze_tree_rule at h
    cases hchk : st.treedefs.enum.mapM (fun p =>
        if p.1 ∈ dimensions ∧ p.2 ≠ TRIVIAL_TREEDEF then
          Except.error TreeErr.InvalidSqueezeAxis else Except.ok ()) with
    | error e => rw [hchk, exbind_error] at h; cases h
    | ok outChk =>
      rw [hchk, exbind_ok] at h
      simp only [] at h
      cases hlv : ((iter_leaf_coords st.treedefs).zip (iter_leaf_coords
          ((st.treedefs.enum.filter (fun p => decide (p.1 ∉ dimensions))).map (·.2)))).mapM
          (fun pr => do
            let leaf ← dictGet st.leaves pr.1
            let squeezed ← squeezeArr leaf (axes_for_leaf st.leafshapes pr.1 dimensions)
            Except.ok (pr.2, squeezed)) with
      | error e => rw [hlv, exbind_error] at h; cases h
      | ok outLvs =>
        rw [hlv, exbind_ok] at h
        cases h
        obtain ⟨y, hy, hymem⟩ := mapM_ok_mem _ _ _ hlv pr hpr
        cases hg : dictGet st.leaves pr.1 with
        | error e1 => rw [hg, exbind_error] at hy; cases hy
        | ok leaf =>
          rw [hg, exbind_ok] at hy
          cases hsq : squeezeArr leaf (axes_for_leaf st.leafshapes pr.1 dimensions) with
          | error e2 => rw [hsq, exbind_error] at hy; cases hy
          | ok b =>
            rw [hsq, exbind_ok] at hy
            cases hy
            obtain ⟨hbsh, _, hbdata⟩ := squeezeArr_ok_spec _ _ _ hsq
            exact ⟨leaf, b, (dictGet_ok_iff _ _ _).mp hg, hymem, hbsh, hbdata⟩

/-- C8 (counterexample to the claim as stated).  Squeezing the only axis of a
value whose axis has a trivial treedef but a rank-2 segment `(1,1)` — an
axis that is NOT trivial in the `is_trivial_axis` sense the claim requires —
succeeds (no `InvalidSqueezeAxis` is raised): only the container descriptor
is checked. -/
theorem C8_counterexample :
    squeeze_tree_rule stSqEx [0] =
      Except.ok ⟨[], [], [([], ⟨[], DType.float32, [5]⟩)]⟩ ∧
    is_trivial_axis (stSqEx.treedefs.getD 0 TRIVIAL_TREEDEF)
      (stSqEx.leafshapes.getD 0 []) = false :=
  ⟨by decide, by decide⟩

/-! Lemmas about the pytree round trip (for claims C2 and C10). -/

theorem obind_some {α β : Type} (a : α) (f : α → Option β) : (some a >>= f) = f a := rfl

theorem obind_none {α β : Type} (f : α → Option β) : ((none : Option α) >>= f) = none := rfl

theorem opure_def {β : Type} (b : β) : (pure b : Option β) = some b := rfl

theorem unflattenAux_graft {α β : Type} (f : α → PyTree β) :
    ∀ (t : PyTree α) (rest : List (PyTree β)),
      unflattenAux (tree_structure t) ((tree_leaves t).map f ++ rest) =
        some (t.mapLeaves f, rest) := by
  intro t
  induction t with
  | leaf x => intro rest; rfl
  | nil tag => intro rest; rfl
  | cons tag hd tl ihh iht =>
    intro rest
    show unflattenAux (PyTree.cons tag (tree_structure hd) (tree_structure tl)) _ = _
    unfold unflattenAux
    rw [show ((tree_leaves (PyTree.cons tag hd tl)).map f ++ rest) =
      ((tree_leaves hd).map f ++ ((tree_leaves tl).map f ++ rest)) by
        simp [tree_leaves, List.map_append, List.append_assoc]]
    rw [ihh]
    simp only []
    rw [iht]
    rfl

theorem tree_unflatten_graft {α β : Type} (f : α → PyTree β) (t : PyTree α) :
    tree_unflatten (tree_structure t) ((tree_leaves t).map f) = some (t.mapLeaves f) := by
  unfold tree_unflatten
  rw [show ((tree_leaves t).map f) = ((tree_leaves t).map f ++ []) by simp]
  rw [unflattenAux_graft f t []]

theorem numLeaves_structure {α : Type} :
    ∀ (t : PyTree α), (tree_structure t).numLeaves = (tree_leaves t).length := by
  intro t
  induction t with
  | leaf x => rfl
  | nil tag => rfl
  | cons tag hd tl ihh iht =>
    show (tree_structure hd).numLeaves + (tree_structure tl).numLeaves = _
    rw [ihh, iht]
    simp [tree_leaves]

theorem lookup_enumFrom {β : Type} (g : Arr → β) :
    ∀ (xs : List Arr) (k i : Nat), i < xs.length →
      assocLookup ((List.enumFrom k xs).map (fun p => ([p.1], g p.2))) [k + i] =
        some (g (xs.getD i junkArr)) := by
  intro xs
  induction xs with
  | nil => intro k i hi; exact absurd hi (by simp)
  | cons x t ih =>
    intro k i hi
    cases i with
    | zero =>
      show assocLookup (([k], g x) :: _) [k + 0] = _
      unfold assocLookup
      rw [if_pos (by simp)]
      rfl
    | succ i0 =>
      show assocLookup (([k], g x) :: (List.enumFrom (k + 1) t).map _) [k + (i0 + 1)] = _
      unfold assocLookup
      rw [if_neg (by intro hc; cases hc)]
      rw [show k + (i0 + 1) = (k + 1) + i0 by omega]
      rw [ih (k + 1) i0 (by simpa using hi)]
      rfl

theorem mapM_map_option {α β γ : Type} (g : α → β) (f : β → Option γ) :
    ∀ (L : List α), (L.map g).mapM f = L.mapM (fun x => f (g x)) := by
  intro L
  induction L with
  | nil => rfl
  | cons a t ih => rw [List.map_cons, List.mapM_cons, List.mapM_cons, ih]

theorem range_mapM_option {β : Type} (f : Nat → Option β) (d : β) :
    ∀ (ys : List β), (∀ i, i < ys.length → f i = some (ys.getD i d)) →
      (List.range ys.length).mapM f = some ys := by
  intro ys
  induction ys generalizing f with
  | nil => intro _; rfl
  | cons y t ih =>
    intro hall
    rw [show (y :: t).length = t.length + 1 from rfl, List.range_succ_eq_map]
    rw [List.mapM_cons, mapM_map_option]
    rw [show f 0 = some y by simpa using hall 0 (by simp)]
    rw [obind_some]
    rw [ih (fun x => f (x + 1)) (fun i hi => by simpa using hall (i + 1) (by simpa using hi))]
    rfl

theorem strip_mapLeaves (dt : DType) :
    ∀ (t : PyTree Arr),
      stripArr (t.mapLeaves (fun a => PyTree.leaf (asarray a dt))) = stripArr t := by
  intro t
  induction t with
  | leaf x => rfl
  | nil tag => rfl
  | cons tag hd tl ihh iht =>
    simp only [stripArr, PyTree.mapLeaves] at ihh iht ⊢
    rw [ihh, iht]

theorem getD_map_leaf {β : Type} (g : Arr → β) :
    ∀ (xs : List Arr) (i : Nat), (xs.map g).getD i (g junkArr) = g (xs.getD i junkArr) := by
  intro xs i
  simp only [List.getD_eq_getElem?_getD, List.getElem?_map]
  cases xs[i]? <;> simp

theorem restoreRev_single (td : TreeDef) (lvs : List (Coords × PyTree Arr))
    (ll : List (PyTree Arr)) (t1 : PyTree Arr)
    (h1 : (List.range td.numLeaves).mapM (fun i => assocLookup lvs ([] ++ [i])) = some ll)
    (h2 : tree_unflatten td ll = some t1) :
    restoreRev [td] lvs = some t1 := by
  unfold restoreRev
  simp only [List.reverse_nil]
  rw [show iter_leaf_coords ([] : List TreeDef) = [[]] from rfl]
  rw [List.mapM_cons]
  simp only [h1, h2, List.mapM_nil, obind_some, opure_def]
  rfl

/-- C2, corrected.  For every nested container with at least one leaf (the
promoted dtype of the leaves exists), the conversion boundary produces a
structured representation whose restoration yields the original container
with every leaf cast to the promoted dtype — equal to the original container
in container structure and in leaf shapes and values (`stripArr`), leaf
dtypes possibly promoted. -/
theorem C2_amended_roundtrip (t : PyTree Arr) (dt : DType)
    (h : result_type ((tree_flatten t).1.map (·.dtype)) = some dt) :
    ∃ st, convert_vectorized_tree t = some st ∧
      restore_tree st.treedefs st.leaves =
        some (t.mapLeaves (fun a => PyTree.leaf (asarray a dt))) ∧
      stripArr (t.mapLeaves (fun a => PyTree.leaf (asarray a dt))) = stripArr t := by
  have hconv : convert_vectorized_tree t =
      some ⟨[(tree_flatten t).2], [(tree_flatten t).1.map (·.shape)],
        (tree_flatten t).1.enum.map (fun p => ([p.1], asarray p.2 dt))⟩ := by
    unfold convert_vectorized_tree
    simp only []
    rw [h]
  refine ⟨_, hconv, ?_, strip_mapLeaves dt t⟩
  show restore_tree [(tree_flatten t).2]
      ((tree_flatten t).1.enum.map (fun p => ([p.1], asarray p.2 dt))) = _
  unfold restore_tree
  have hwrap : (((tree_flatten t).1.enum.map (fun p => ([p.1], asarray p.2 dt))).map
      (fun p => (p.1, PyTree.leaf p.2))) =
      ((List.enumFrom 0 (tree_leaves t)).map
        (fun p => ([p.1], PyTree.leaf (asarray p.2 dt)))) := by
    rw [List.map_map]
    rfl
  rw [hwrap]
  rw [show ([(tree_flatten t).2].reverse) = [(tree_flatten t).2] from rfl]
  apply restoreRev_single (tree_structure t)
    ((List.enumFrom 0 (tree_leaves t)).map (fun p => ([p.1], PyTree.leaf (asarray p.2 dt))))
    ((tree_leaves t).map (fun a => PyTree.leaf (asarray a dt)))
    (t.mapLeaves (fun a => PyTree.leaf (asarray a dt)))
  · rw [show (tree_structure t).numLeaves =
      ((tree_leaves t).map (fun a => PyTree.leaf (asarray a dt))).length by
        rw [numLeaves_structure]; simp]
    apply range_mapM_option _ (PyTree.leaf (asarray junkArr dt))
    intro i hi
    have hi2 : i < (tree_leaves t).length := by simpa using hi
    rw [show ([] ++ [i] : List Nat) = [0 + i] by simp]
    rw [lookup_enumFrom (fun a => PyTree.leaf (asarray a dt)) (tree_leaves t) 0 i hi2]
    rw [getD_map_leaf (fun a => PyTree.leaf (asarray a dt)) (tree_leaves t) i]
  · exact tree_unflatten_graft (fun a => PyTree.leaf (asarray a dt)) t

/-- C2 (counterexample to the claim as stated).  The empty container (no
leaves) is a nested container all of whose leaves are vacuously arrays, yet
conversion fails (`jnp.result_type` with no arguments raises), so restoring
the conversion result cannot yield the container back. -/
theorem C2_counterexample :
    convert_vectorized_tree (PyTree.nil "dict") = none ∧
    ¬ ∃ st, convert_vectorized_tree (PyTree.nil "dict") = some st := by
  refine ⟨by decide, ?_⟩
  rintro ⟨st, hst⟩
  rw [show convert_vectorized_tree (PyTree.nil "dict") = none by decide] at hst
  cases hst

/-- C2 (witness).  The amended round trip applied to the spec's running
container. -/
theorem C2_witness :
    ∃ st, convert_vectorized_tree exTreeXYZ = some st ∧
      restore_tree st.treedefs st.leaves =
        some (exTreeXYZ.mapLeaves (fun a => PyTree.leaf (asarray a DType.float32))) := by
  obtain ⟨st, h1, h2, _⟩ := C2_amended_roundtrip exTreeXYZ DType.float32 (by decide)
  exact ⟨st, h1, h2⟩

/-- C10, confirmed.  The conversion boundary casts every stored block to the
single dtype promoted from all of the container's leaves: the block dict is
exactly the enumerated leaves retagged with the promoted dtype, so the
element type is uniform across blocks; and on a concrete mixed container an
individual stored block's dtype differs from the input leaf's dtype. -/
theorem C10_dtype_promotion :
    (∀ (t : PyTree Arr) (dt : DType),
       result_type ((tree_flatten t).1.map (·.dtype)) = some dt →
       ∃ st, convert_vectorized_tree t = some st ∧
         st.leaves = (tree_flatten t).1.enum.map (fun p => ([p.1], asarray p.2 dt)) ∧
         ∀ kv ∈ st.leaves, kv.2.dtype = dt) ∧
    (convert_vectorized_tree mixedTree =
       some ⟨[tree_structure mixedTree], [[[], []]],
         [([0], ⟨[], DType.float32, [1]⟩), ([1], ⟨[], DType.float32, [2]⟩)]⟩ ∧
     (tree_flatten mixedTree).1.map (·.dtype) = [DType.int32, DType.float32]) := by
  constructor
  · intro t dt h
    have hconv : convert_vectorized_tree t =
        some ⟨[(tree_flatten t).2], [(tree_flatten t).1.map (·.shape)],
          (tree_flatten t).1.enum.map (fun p => ([p.1], asarray p.2 dt))⟩ := by
      unfold convert_vectorized_tree
      simp only []
      rw [h]
    refine ⟨_, hconv, rfl, ?_⟩
    intro kv hkv
    obtain ⟨p, _, hp⟩ := List.mem_map.mp hkv
    rw [← hp]
    rfl
  · exact ⟨by decide, by decide⟩

/-- C10 (witness).  The general statement applied to the mixed container:
both stored blocks carry the promoted dtype `float32` although the first
input leaf is `int32`. -/
theorem C10_witness :
    ∃ st, convert_vectorized_tree mixedTree = some st ∧
      ∀ kv ∈ st.leaves, kv.2.dtype = DType.float32 := by
  obtain ⟨st, h1, _, h3⟩ := C10_dtype_promotion.1 mixedTree DType.float32 (by decide)
  exact ⟨st, h1, h3⟩

theorem reducerLeafValue_ok (kern : Arr → List Nat → Arr) (ls : LeafShapes) (lvs : Leaves)
    (axes : List Nat) (ic : Coords) (v : Arr) :
    reducerLeafValue kern ls lvs axes ic = Except.ok v →
    v = kern (dictGetD lvs ic) (axes_for_leaf ls ic axes) := by
  unfold reducerLeafValue dictGetD
  cases hg : dictGet lvs ic with
  | error e => intro h; simp [Except.map] at h
  | ok leaf =>
    intro h
    simp only [Except.map] at h
    cases h
    rw [(dictGet_ok_iff lvs ic leaf).mp hg]
    rfl

/-- C4, confirmed.  Reducing the structured value built from
`{'x': 1.0, 'y': [2.0], 'z': [[3.0, 4.0]]}` over all axes yields `10.0` with
the sum combiner and `4.0` with the max combiner; and in general, on
success, the reduction rule's output block at every output coordinate is the
binary-combiner fold of the kernel-reduced blocks of exactly the input
coordinates that drop to that output coordinate (in input iteration order). -/
theorem C4_reduction :
    (convert_vectorized_tree exTreeXYZ = some stXYZ ∧
     reducer_tree_rule reduceSumArr addArr stXYZ [0] =
       Except.ok ⟨[], [], [([], ⟨[], DType.float32, [10]⟩)]⟩ ∧
     reducer_tree_rule reduceMaxArr maxArr stXYZ [0] =
       Except.ok ⟨[], [], [([], ⟨[], DType.float32, [4]⟩)]⟩) ∧
    (∀ (kern : Arr → List Nat → Arr) (binop : Arr → Arr → Arr) (st : TreeState)
       (axes : List Nat) (st1 : TreeState),
       reducer_tree_rule kern binop st axes = Except.ok st1 →
       ∀ oc ∈ iter_leaf_coords st1.treedefs,
         ∃ vh vt, ((iter_leaf_coords st.treedefs).filter
             (fun ic => decide (dropAxes axes ic = oc))).map
             (fun ic => kern (dictGetD st.leaves ic) (axes_for_leaf st.leafshapes ic axes)) =
             vh :: vt ∧
           assocLookup st1.leaves oc = some (vt.foldl binop vh)) := by
  constructor
  · exact ⟨by decide, by decide, by decide⟩
  · intro kern binop st axes st1 h oc hoc
    unfold reducer_tree_rule at h
    have h2 : (do
        let nodes ← accumExcept (dropAxes axes)
          (reducerLeafValue kern st.leafshapes st.leaves axes)
          (iter_leaf_coords st.treedefs)
          ((iter_leaf_coords ((st.treedefs.enum.filter
            (fun p => decide (p.1 ∉ axes))).map (·.2))).map (fun c => (c, ([] : List Arr))))
        let outLeaves ← reduceNodes binop nodes
        Except.ok (⟨(st.treedefs.enum.filter (fun p => decide (p.1 ∉ axes))).map (·.2),
          (st.leafshapes.enum.filter (fun p => decide (p.1 ∉ axes))).map (·.2),
          outLeaves⟩ : TreeState)) = Except.ok st1 := h
    clear h
    cases haccum : accumExcept (dropAxes axes)
        (reducerLeafValue kern st.leafshapes st.leaves axes)
        (iter_leaf_coords st.treedefs)
        ((iter_leaf_coords ((st.treedefs.enum.filter
          (fun p => decide (p.1 ∉ axes))).map (·.2))).map (fun c => (c, ([] : List Arr)))) with
    | error e => rw [haccum, exbind_error] at h2; cases h2
    | ok nodes =>
      rw [haccum, exbind_ok] at h2
      cases hred : reduceNodes binop nodes with
      | error e => rw [hred, exbind_error] at h2; cases h2
      | ok outLeaves =>
        rw [hred, exbind_ok] at h2
        cases h2
        have hoc2 : oc ∈ iter_leaf_coords ((st.treedefs.enum.filter
            (fun p => decide (p.1 ∉ axes))).map (·.2)) := hoc
        have h0 := nodes0_lookup _ oc hoc2
        have h1 := accumExcept_lookup (dropAxes axes)
          (reducerLeafValue kern st.leafshapes st.leaves axes)
          (iter_leaf_coords st.treedefs) _ nodes haccum oc
        rw [h0] at h1
        simp only [Option.map_some', List.nil_append] at h1
        have hcong : ((iter_leaf_coords st.treedefs).filter
            (fun ic => decide (dropAxes axes ic = oc))).map
            (fun ic => exceptValArr (reducerLeafValue kern st.leafshapes st.leaves axes ic)) =
            ((iter_leaf_coords st.treedefs).filter
              (fun ic => decide (dropAxes axes ic = oc))).map
            (fun ic => kern (dictGetD st.leaves ic) (axes_for_leaf st.leafshapes ic axes)) := by
          apply List.map_congr_left
          intro ic hic
          have hicL : ic ∈ iter_leaf_coords st.treedefs := List.mem_of_mem_filter hic
          obtain ⟨v, hv⟩ := accumExcept_ok_vals _ _ _ _ _ haccum ic hicL
          rw [hv]
          rw [reducerLeafValue_ok kern st.leafshapes st.leaves axes ic v hv]
          rfl
        rw [hcong] at h1
        obtain ⟨vh, vt, hl, hout⟩ := reduceNodes_lookup binop nodes outLeaves hred oc _ h1
        exact ⟨vh, vt, hl ▸ rfl, hout⟩

/-- C4 (witness).  The general characterization applied to the concrete sum
reduction of the running example: the single output block is the add-fold of
the three kernel-reduced input blocks. -/
theorem C4_witness :
    ∃ vh vt, ((iter_leaf_coords stXYZ.treedefs).filter
        (fun ic => decide (dropAxes [0] ic = []))).map
        (fun ic => reduceSumArr (dictGetD stXYZ.leaves ic)
          (axes_for_leaf stXYZ.leafshapes ic [0])) = vh :: vt ∧
      assocLookup (⟨[], [], [([], ⟨[], DType.float32, [10]⟩)]⟩ : TreeState).leaves [] =
        some (vt.foldl addArr vh) := by
  have := C4_reduction.2 reduceSumArr addArr stXYZ [0]
    ⟨[], [], [([], ⟨[], DType.float32, [10]⟩)]⟩ (by decide) [] (by decide)
  simpa using this

theorem dot_rule_eq (lhs rhs : TreeState) (lc rc b : List Nat) :
    dot_general_tree_rule lhs rhs ((lc, rc), (b, b)) =
      (do
        let _ ← (b.zip b ++ lc.zip rc).mapM (fun p =>
          if lhs.treedefs.getD p.1 TRIVIAL_TREEDEF ≠ rhs.treedefs.getD p.2 TRIVIAL_TREEDEF then
            Except.error TreeErr.ConflictingStructure
          else if lhs.leafshapes.getD p.1 [] ≠ rhs.leafshapes.getD p.2 [] then
            Except.error TreeErr.ConflictingShape
          else Except.ok ())
        let nodes ← accumExcept (dotKeyf lhs rhs lc rc b) (dotLeafValue lhs rhs lc rc b)
          (dotPairs lhs rhs rc b)
          ((iter_leaf_coords ((b ++ dotLhsRemaining lhs lc b).map
              (fun i => lhs.treedefs.getD i TRIVIAL_TREEDEF)
            ++ (dotRhsRemaining rhs rc b).map
              (fun i => rhs.treedefs.getD i TRIVIAL_TREEDEF))).map (fun c => (c, ([] : List Arr))))
        let outLeaves ← reduceNodes addArr nodes
        Except.ok (⟨(b ++ dotLhsRemaining lhs lc b).map (fun i => lhs.treedefs.getD i TRIVIAL_TREEDEF)
            ++ (dotRhsRemaining rhs rc b).map (fun i => rhs.treedefs.getD i TRIVIAL_TREEDEF),
          (b ++ dotLhsRemaining lhs lc b).map (fun i => lhs.leafshapes.getD i [])
            ++ (dotRhsRemaining rhs rc b).map (fun i => rhs.leafshapes.getD i []),
          outLeaves⟩ : TreeState)) := by
  unfold dot_general_tree_rule
  rw [if_pos rfl]
  rfl

/-- C5, confirmed.  The dot-product of the structured value built from
`{'x': 1.0, 'y': [2.0], 'z': [[3.0, 4.0]]}` with itself is `30.0`; and in
general, on success, the contraction rule's output block at every output
coordinate is the sum (add-fold) of the per-pair contraction-kernel results
over exactly the enumerated (lhs coordinate, rhs nonbatch coordinate) pairs
whose batch + lhs-remaining + rhs-remaining partition indices form that
output coordinate, every enumerated pair having a successful kernel call. -/
theorem C5_contraction :
    (convert_vectorized_tree exTreeXYZ = some stXYZ ∧
     dot_general_tree_rule stXYZ stXYZ (([0], [0]), ([], [])) =
       Except.ok ⟨[], [], [([], ⟨[], DType.float32, [30]⟩)]⟩) ∧
    (∀ (lhs rhs : TreeState) (lc rc b : List Nat) (st1 : TreeState),
       dot_general_tree_rule lhs rhs ((lc, rc), (b, b)) = Except.ok st1 →
       (∀ pr ∈ dotPairs lhs rhs rc b, ∃ v, dotLeafValue lhs rhs lc rc b pr = Except.ok v) ∧
       ∀ oc ∈ iter_leaf_coords st1.treedefs,
         ∃ vh vt, ((dotPairs lhs rhs rc b).filter
             (fun pr => decide (dotKeyf lhs rhs lc rc b pr = oc))).map
             (fun pr => exceptValArr (dotLeafValue lhs rhs lc rc b pr)) = vh :: vt ∧
           assocLookup st1.leaves oc = some (vt.foldl addArr vh)) := by
  constructor
  · exact ⟨by decide, by decide⟩
  · intro lhs rhs lc rc b st1 h
    rw [dot_rule_eq] at h
    cases hchk : (b.zip b ++ lc.zip rc).mapM (fun p =>
        if lhs.treedefs.getD p.1 TRIVIAL_TREEDEF ≠ rhs.treedefs.getD p.2 TRIVIAL_TREEDEF then
          Except.error TreeErr.ConflictingStructure
        else if lhs.leafshapes.getD p.1 [] ≠ rhs.leafshapes.getD p.2 [] then
          Except.error TreeErr.ConflictingShape
        else Except.ok ()) with
    | error e => rw [hchk, exbind_error] at h; cases h
    | ok chk =>
      rw [hchk, exbind_ok] at h
      cases haccum : accumExcept (dotKeyf lhs rhs lc rc b) (dotLeafValue lhs rhs lc rc b)
          (dotPairs lhs rhs rc b)
          ((iter_leaf_coords ((b ++ dotLhsRemaining lhs lc b).map
              (fun i => lhs.treedefs.getD i TRIVIAL_TREEDEF)
            ++ (dotRhsRemaining rhs rc b).map
              (fun i => rhs.treedefs.getD i TRIVIAL_TREEDEF))).map
            (fun c => (c, ([] : List Arr)))) with
      | error e => rw [haccum, exbind_error] at h; cases h
      | ok nodes =>
        rw [haccum, exbind_ok] at h
        cases hred : reduceNodes addArr nodes with
        | error e => rw [hred, exbind_error] at h; cases h
        | ok outLeaves =>
          rw [hred, exbind_ok] at h
          cases h
          refine ⟨fun pr hpr => accumExcept_ok_vals _ _ _ _ _ haccum pr hpr, ?_⟩
          intro oc hoc
          have h0 := nodes0_lookup _ oc hoc
          have h1 := accumExcept_lookup (dotKeyf lhs rhs lc rc b)
            (dotLeafValue lhs rhs lc rc b) (dotPairs lhs rhs rc b) _ nodes haccum oc
          rw [h0] at h1
          simp only [Option.map_some', List.nil_append] at h1
          obtain ⟨vh, vt, hl, hout⟩ := reduceNodes_lookup addArr nodes outLeaves hred oc _ h1
          exact ⟨vh, vt, hl ▸ rfl, hout⟩

/-- C5 (witness).  The general characterization applied to the concrete
dot-product of the running example with itself: the single output block is
the add-fold of the three per-pair kernel results. -/
theorem C5_witness :
    ∃ vh vt, ((dotPairs stXYZ stXYZ [0] []).filter
        (fun pr => decide (dotKeyf stXYZ stXYZ [0] [0] [] pr = []))).map
        (fun pr => exceptValArr (dotLeafValue stXYZ stXYZ [0] [0] [] pr)) = vh :: vt ∧
      assocLookup (⟨[], [], [([], ⟨[], DType.float32, [30]⟩)]⟩ : TreeState).leaves [] =
        some (vt.foldl addArr vh) := by
  have := (C5_contraction.2 stXYZ stXYZ [0] [0] []
    ⟨[], [], [([], ⟨[], DType.float32, [30]⟩)]⟩ (by decide)).2 [] (by decide)
  simpa using this

theorem naryopAxisStructure_conflict (tds : List TreeDef) (lss : List (List Shape))
    (h : 1 < (nonTrivialDedup tds).length) :
    naryopAxisStructure tds lss = Except.error TreeErr.ConflictingStructure := by
  unfold naryopAxisStructure
  rw [if_pos h]

theorem naryopAxisStructure_error_cs (tds : List TreeDef) (lss : List (List Shape))
    (e : TreeErr) (hs : ¬ 1 < (nonTrivialShapesDedup lss).length) :
    naryopAxisStructure tds lss = Except.error e → e = TreeErr.ConflictingStructure := by
  unfold naryopAxisStructure
  by_cases h1 : 1 < (nonTrivialDedup tds).length
  · rw [if_pos h1]
    intro h
    cases h
    rfl
  · rw [if_neg h1, if_neg hs]
    cases nonTrivialShapesDedup lss with
    | nil => intro h; cases h
    | cons s rest =>
      cases rest with
      | nil => intro h; cases h
      | cons s2 r2 => intro h; cases h

/-- C6, corrected.  Whenever some axis carries two or more distinct
non-trivial container descriptors, the n-ary rule fails before producing any
output with `ConflictingStructure` — provided no axis carries two or more
distinct non-trivial segment sequences (a shape conflict encountered at an
earlier axis of the left-to-right scan yields `ConflictingShape` instead,
as the counterexample shows).  In particular combining two structured values
whose first axis containers come from flattening `{'a': 0, 'b': 0}` and
`{'c': 0, 'd': 0}` raises `ConflictingStructure`. -/
theorem C6_amended_conflict :
    (naryop_tree_rule addK [stABex, stCDex] = Except.error TreeErr.ConflictingStructure) ∧
    (∀ (op : List Arr → Arr) (ops opsF : List TreeState)
       (scalars : List (Nat × Arr)) (m : Nat),
       filter_scalar_leaves ops = Except.ok (opsF, scalars) →
       opsF ≠ [] →
       (∀ st ∈ opsF, st.treedefs.length = m) →
       (∃ a, a < m ∧ 1 < (nonTrivialDedup (treedefsAt opsF a)).length) →
       (∀ a, a < m → ¬ 1 < (nonTrivialShapesDedup (leafshapesAt opsF a)).length) →
       naryop_tree_rule op ops = Except.error TreeErr.ConflictingStructure) := by
  constructor
  · decide
  · intro op ops opsF scalars m hfs hne hrank hconf hnoshape
    obtain ⟨o0, orest, rfl⟩ : ∃ o0 orest, opsF = o0 :: orest := by
      cases opsF with
      | nil => exact absurd rfl hne
      | cons a b => exact ⟨a, b, rfl⟩
    have hdedup : ((o0 :: orest).map (fun st => st.treedefs.length)).dedup = [m] := by
      apply dedup_const
      · intro x hx
        obtain ⟨st, hst, rfl⟩ := List.mem_map.mp hx
        exact hrank st hst
      · simp
    have hmapM : (List.range m).mapM (fun axis =>
        naryopAxisStructure (treedefsAt (o0 :: orest) axis)
          (leafshapesAt (o0 :: orest) axis)) =
        Except.error TreeErr.ConflictingStructure := by
      apply mapM_error_of_uniform
      · obtain ⟨a, ham, hconfa⟩ := hconf
        exact ⟨a, List.mem_range.mpr ham, TreeErr.ConflictingStructure,
          naryopAxisStructure_conflict _ _ hconfa⟩
      · intro a ha e he
        exact naryopAxisStructure_error_cs _ _ e
          (hnoshape a (List.mem_range.mp ha)) he
    have hstruct : naryopOutStructure (o0 :: orest) m =
        Except.error TreeErr.ConflictingStructure := by
      unfold naryopOutStructure
      rw [hmapM, exbind_error]
    unfold naryop_tree_rule
    rw [hfs, exbind_ok]
    show (do
      let ndim ← match ((o0 :: orest).map (fun st => st.treedefs.length)).dedup with
        | [n] => Except.ok n
        | _ => Except.error TreeErr.SizeUnpackError
      let outStruct ← naryopOutStructure (o0 :: orest) ndim
      let fixed ← (o0 :: orest).mapM (fun st =>
        naryopFixOperand outStruct.2 ndim st.leafshapes st.leaves)
      let outLeaves ← (iter_leaf_coords outStruct.1).mapM (fun oc => do
        let args ← fixed.mapM (fun p => naryopArg outStruct.2 oc p.1 p.2)
        Except.ok (oc, op (insertScalars args scalars)))
      Except.ok (⟨outStruct.1, outStruct.2, outLeaves⟩ : TreeState)) =
      Except.error TreeErr.ConflictingStructure
    rw [hdedup]
    show (do
      let outStruct ← naryopOutStructure (o0 :: orest) m
      let fixed ← (o0 :: orest).mapM (fun st =>
        naryopFixOperand outStruct.2 m st.leafshapes st.leaves)
      let outLeaves ← (iter_leaf_coords outStruct.1).mapM (fun oc => do
        let args ← fixed.mapM (fun p => naryopArg outStruct.2 oc p.1 p.2)
        Except.ok (oc, op (insertScalars args scalars)))
      Except.ok (⟨outStruct.1, outStruct.2, outLeaves⟩ : TreeState)) =
      Except.error TreeErr.ConflictingStructure
    rw [hstruct, exbind_error]

/-- C6 (witness).  The general statement applied to the two rank-1 operands
built over the `{'a','b'}` and `{'c','d'}` descriptors. -/
theorem C6_witness :
    naryop_tree_rule addK [stABex, stCDex] = Except.error TreeErr.ConflictingStructure := by
  apply C6_amended_conflict.2 addK [stABex, stCDex] [stABex, stCDex] [] 1
  · decide
  · decide
  · decide
  · exact ⟨0, by omega, by decide⟩
  · decide

/-- C6 (counterexample to the claim as stated).  Two equal-rank operands
whose axis 1 carries distinct non-trivial container descriptors (so the
claim requires a `ConflictingStructure` failure), but whose axis 0 carries
two distinct non-trivial segment sequences: the axis scan hits the shape
conflict first and the rule fails with `ConflictingShape`, not
`ConflictingStructure`. -/
theorem C6_counterexample :
    naryop_tree_rule addK [opPex, opQex] = Except.error TreeErr.ConflictingShape ∧
    naryop_tree_rule addK [opPex, opQex] ≠ Except.error TreeErr.ConflictingStructure ∧
    1 < (nonTrivialDedup (treedefsAt [opPex, opQex] 1)).length :=
  ⟨by decide, by decide, by decide⟩

theorem concatAxisStructure_dim_error (dimension : Nat) (tds : List TreeDef)
    (lss : List (List Shape))
    (h : ¬ (nonTrivialDedup tds).isEmpty ∨ ¬ (nonTrivialShapesDedup lss).isEmpty) :
    concatAxisStructure dimension dimension tds lss =
      Except.error TreeErr.InvalidConcatenateAxis := by
  unfold concatAxisStructure
  by_cases h1 : (nonTrivialDedup tds).isEmpty
  · rw [if_neg (by rintro ⟨_, hc⟩; exact hc h1)]
    have h2 : ¬ (nonTrivialShapesDedup lss).isEmpty := by
      rcases h with hA | hB
      · exact absurd h1 hA
      · exact hB
    rw [if_neg (by
      have : (nonTrivialDedup tds).length = 0 := by
        cases hd : nonTrivialDedup tds with
        | nil => rfl
        | cons a t => rw [hd] at h1; cases h1
      omega)]
    rw [if_pos ⟨rfl, h2⟩]
  · rw [if_pos ⟨rfl, h1⟩]

theorem concatAxisStructure_dim_ok (dimension : Nat) (tds : List TreeDef)
    (lss : List (List Shape)) (pr : TreeDef × List Shape)
    (h : concatAxisStructure dimension dimension tds lss = Except.ok pr) :
    pr.2 = [[(lss.map axis_length).sum]] := by
  unfold concatAxisStructure at h
  by_cases h1 : (nonTrivialDedup tds).isEmpty
  · rw [if_neg (by rintro ⟨_, hc⟩; exact hc h1)] at h
    rw [if_neg (by
      have : (nonTrivialDedup tds).length = 0 := by
        cases hd : nonTrivialDedup tds with
        | nil => rfl
        | cons a t => rw [hd] at h1; cases h1
      omega)] at h
    by_cases h2 : (nonTrivialShapesDedup lss).isEmpty
    · rw [if_neg (by rintro ⟨_, hc⟩; exact hc h2)] at h
      rw [if_neg (by
        have : (nonTrivialShapesDedup lss).length = 0 := by
          cases hd : nonTrivialShapesDedup lss with
          | nil => rfl
          | cons a t => rw [hd] at h2; cases h2
        omega)] at h
      have hnil : nonTrivialShapesDedup lss = [] := by
        cases hd : nonTrivialShapesDedup lss with
        | nil => rfl
        | cons a t => rw [hd] at h2; cases h2
      rw [hnil] at h
      rw [if_pos rfl] at h
      cases h
      rfl
    · rw [if_pos ⟨rfl, h2⟩] at h
      cases h
  · rw [if_pos ⟨rfl, h1⟩] at h
    cases h

theorem getD_range_eq (m j : Nat) (hj : j < m) : (List.range m).getD j 0 = j := by
  simp [List.getD_eq_getElem?_getD, List.getElem?_range hj]

theorem axis_length_single (n : Nat) : axis_length [[n]] = n := by
  simp [axis_length]

/-- C7, corrected.  Along the concatenation axis, a non-trivial container
descriptor or a multi-segment sequence makes the rule fail with
`InvalidConcatenateAxis` — provided the axes scanned before the
concatenation axis all pass their own structure checks (a conflict at an
earlier axis fails first with that axis's error, as the counterexample
shows).  On success, the result's length along the concatenation axis is the
sum of the operands' axis lengths there and is stored as a single segment. -/
theorem C7_amended_concat :
    (concatenate_tree_rule [stABex, stABex] 0 =
       Except.error TreeErr.InvalidConcatenateAxis) ∧
    (∀ (ops : List TreeState) (m dimension : Nat),
       (ops.map (fun st => st.treedefs.length)).dedup = [m] →
       dimension < m →
       (∀ axis, axis < dimension → ∃ r, concatAxisStructure dimension axis
         (treedefsAt ops axis) (leafshapesAt ops axis) = Except.ok r) →
       (¬ (nonTrivialDedup (treedefsAt ops dimension)).isEmpty ∨
        ¬ (nonTrivialShapesDedup (leafshapesAt ops dimension)).isEmpty) →
       concatenate_tree_rule ops dimension =
         Except.error TreeErr.InvalidConcatenateAxis) ∧
    (∀ (ops : List TreeState) (m dimension : Nat) (st1 : TreeState),
       (ops.map (fun st => st.treedefs.length)).dedup = [m] →
       dimension < m →
       concatenate_tree_rule ops dimension = Except.ok st1 →
       st1.leafshapes.getD dimension [] =
         [[(ops.map (fun st => axis_length (st.leafshapes.getD dimension []))).sum]] ∧
       axis_length (st1.leafshapes.getD dimension []) =
         (ops.map (fun st => axis_length (st.leafshapes.getD dimension []))).sum) := by
  refine ⟨by decide, ?_, ?_⟩
  · intro ops m dimension hdedup hdim hpre hnontriv
    have hmapM : (List.range m).mapM (fun axis =>
        concatAxisStructure dimension axis (treedefsAt ops axis) (leafshapesAt ops axis)) =
        Except.error TreeErr.InvalidConcatenateAxis := by
      apply mapM_error_at _ 0 TreeErr.InvalidConcatenateAxis (List.range m) dimension
        (by simpa using hdim)
      · intro j hj
        rw [getD_range_eq m j (by omega)]
        exact hpre j hj
      · rw [getD_range_eq m dimension hdim]
        exact concatAxisStructure_dim_error dimension _ _ hnontriv
    have hcos : concatOutStructure ops m dimension =
        Except.error TreeErr.InvalidConcatenateAxis := by
      unfold concatOutStructure
      rw [hmapM, exbind_error]
    unfold concatenate_tree_rule
    rw [hdedup]
    show (do
      let outStruct ← concatOutStructure ops m dimension
      let fixed ← ops.mapM (fun st =>
        concatFixGo outStruct.2 st.leafshapes dimension (List.range m) st.leaves)
      let outLeaves ← (iter_leaf_coords outStruct.1).mapM (fun coords => do
        let args ← fixed.mapM (fun lvs => dictGet lvs coords)
        let leafDim ← match axes_for_leaf outStruct.2 coords [dimension] with
          | [d] => Except.ok d
          | _ => Except.error TreeErr.SizeUnpackError
        Except.ok (coords, concatArr args leafDim))
      Except.ok (⟨outStruct.1, outStruct.2, outLeaves⟩ : TreeState)) =
      Except.error TreeErr.InvalidConcatenateAxis
    rw [hcos, exbind_error]
  · intro ops m dimension st1 hdedup hdim h
    unfold concatenate_tree_rule at h
    rw [hdedup] at h
    have h2 : (do
      let outStruct ← concatOutStructure ops m dimension
      let fixed ← ops.mapM (fun st =>
        concatFixGo outStruct.2 st.leafshapes dimension (List.range m) st.leaves)
      let outLeaves ← (iter_leaf_coords outStruct.1).mapM (fun coords => do
        let args ← fixed.mapM (fun lvs => dictGet lvs coords)
        let leafDim ← match axes_for_leaf outStruct.2 coords [dimension] with
          | [d] => Except.ok d
          | _ => Except.error TreeErr.SizeUnpackError
        Except.ok (coords, concatArr args leafDim))
      Except.ok (⟨outStruct.1, outStruct.2, outLeaves⟩ : TreeState)) = Except.ok st1 := h
    clear h
    cases hcos : concatOutStructure ops m dimension with
    | error e => rw [hcos, exbind_error] at h2; cases h2
    | ok pr =>
      rw [hcos, exbind_ok] at h2
      cases hfix : ops.mapM (fun st =>
          concatFixGo pr.2 st.leafshapes dimension (List.range m) st.leaves) with
      | error e => rw [hfix, exbind_error] at h2; cases h2
      | ok fixed =>
        rw [hfix, exbind_ok] at h2
        cases hol : (iter_leaf_coords pr.1).mapM (fun coords => do
            let args ← fixed.mapM (fun lvs => dictGet lvs coords)
            let leafDim ← match axes_for_leaf pr.2 coords [dimension] with
              | [d] => Except.ok d
              | _ => Except.error TreeErr.SizeUnpackError
            Except.ok (coords, concatArr args leafDim)) with
        | error e => rw [hol, exbind_error] at h2; cases h2
        | ok outLeaves =>
          rw [hol, exbind_ok] at h2
          cases h2
          unfold concatOutStructure at hcos
          cases hmap : (List.range m).mapM (fun axis =>
              concatAxisStructure dimension axis (treedefsAt ops axis)
                (leafshapesAt ops axis)) with
          | error e => rw [hmap, exbind_error] at hcos; cases hcos
          | ok axes =>
            rw [hmap, exbind_ok] at hcos
            cases hcos
            obtain ⟨hlenaxes, hall⟩ := mapM_ok_getD _ 0 (TRIVIAL_TREEDEF, ([] : List Shape))
              (List.range m) axes hmap
            have hmlen : axes.length = m := by simpa using hlenaxes
            have hfd := hall dimension (by simpa using hdim)
            rw [getD_range_eq m dimension hdim] at hfd
            have hval := concatAxisStructure_dim_ok dimension _ _ _ hfd
            have hlt : dimension < axes.length := by omega
            have hgd : (axes.map (·.2)).getD dimension [] =
                (axes.getD dimension (TRIVIAL_TREEDEF, ([] : List Shape))).2 := by
              simp [List.getD_eq_getElem?_getD, List.getElem?_map,
                List.getElem?_eq_getElem hlt]
            have hsum : ((leafshapesAt ops dimension).map axis_length).sum =
                (ops.map (fun st => axis_length (st.leafshapes.getD dimension []))).sum := by
              unfold leafshapesAt
              rw [List.map_map]
              rfl
            constructor
            · show (axes.map (·.2)).getD dimension [] = _
              rw [hgd, hval, hsum]
            · show axis_length ((axes.map (·.2)).getD dimension []) = _
              rw [hgd, hval, hsum, axis_length_single]

/-- C7 (counterexample to the claim as stated).  Concatenating along axis 1
two rank-2 operands whose axis 1 carries non-trivial container descriptors
(so the claim requires an `InvalidConcatenateAxis` failure) while axis 0
carries two distinct non-trivial segment sequences: the axis scan fails at
axis 0 first, with `ConflictingShape` instead of `InvalidConcatenateAxis`. -/
theorem C7_counterexample :
    concatenate_tree_rule [opPex, opQex] 1 = Except.error TreeErr.ConflictingShape ∧
    concatenate_tree_rule [opPex, opQex] 1 ≠
      Except.error TreeErr.InvalidConcatenateAxis ∧
    ¬ (nonTrivialDedup (treedefsAt [opPex, opQex] 1)).isEmpty :=
  ⟨by decide, by decide, by decide⟩

/-- C7 (witness).  The amended error condition applied to the spec's own
restriction example (two operands with the `{'a','b'}` descriptor on the
concatenation axis), and the success condition applied to a stack-like
concatenation of two rank-2 operands along their trivial axis 0. -/
theorem C7_witness :
    concatenate_tree_rule [stABex, stABex] 0 =
      Except.error TreeErr.InvalidConcatenateAxis ∧
    (stRSex.leafshapes.getD 0 [] =
      [[([opRex, opSex].map (fun st => axis_length (st.leafshapes.getD 0 []))).sum]] ∧
     axis_length (stRSex.leafshapes.getD 0 []) =
      ([opRex, opSex].map (fun st => axis_length (st.leafshapes.getD 0 []))).sum) := by
  constructor
  · apply C7_amended_concat.2.1 [stABex, stABex] 1 0
    · decide
    · omega
    · intro axis haxis
      exact absurd haxis (by omega)
    · exact Or.inl (by decide)
  · exact C7_amended_concat.2.2 [opRex, opSex] 2 0 stRSex (by decide) (by omega) (by decide)

/-- C3 (witness).  The amended characterization applied to a concrete state:
the check passes exactly because the non-dtype invariants hold. -/
theorem C3_witness : treeTracerCheck [tdAB] [[[], []]] lvsMixedEx = true := by
  apply (C3_amended_checks_iff [tdAB] [[[], []]] lvsMixedEx).mpr
  refine ⟨by decide, by decide, by decide, ?_⟩
  intro coords hc
  rw [show iter_leaf_coords [tdAB] = [[0], [1]] by decide] at hc
  rcases List.mem_cons.mp hc with rfl | hc2
  · exact ⟨⟨[], DType.float32, [1]⟩, by decide, by decide⟩
  · rcases List.mem_cons.mp hc2 with rfl | hc3
    · exact ⟨⟨[], DType.int32, [2]⟩, by decide, by decide⟩
    · cases hc3

/-- C8 (witness).  The amended characterization applied concretely: the rule
rejects squeezing the `{'a','b'}`-structured axis of `stABex`, and on the
successful squeeze of `stSqEx` the block's two physical dimensions are
dropped with the data unchanged. -/
theorem C8_witness :
    squeeze_tree_rule stABex [0] = Except.error TreeErr.InvalidSqueezeAxis ∧
    (∃ a b, assocLookup stSqEx.leaves [0] = some a ∧
      (([] : Coords), b) ∈ (⟨[], [], [([], ⟨[], DType.float32, [5]⟩)]⟩ : TreeState).leaves ∧
      b.shape = (a.shape.enum.filter
        (fun q => decide (q.1 ∉ axes_for_leaf stSqEx.leafshapes [0] [0]))).map (·.2) ∧
      b.data = a.data) := by
  constructor
  · exact (C8_amended_squeeze.1 stABex [0]).mpr ⟨(0, tdAB), by decide, by decide, by decide⟩
  · exact C8_amended_squeeze.2 stSqEx [0]
      ⟨[], [], [([], ⟨[], DType.float32, [5]⟩)]⟩ (by decide) ([0], []) (by decide)
